import Mathlib

/-!
Verification development for the document-to-structured-data pipeline:
text utilities (cleaning, token estimation, truncation, combination),
the LLM-response repair parser, the PDF extractor with OCR fallback,
the extension dispatcher, and the analyze request handler.

Modelling conventions:
- Python `str` is modelled by `String` / `List Char` (Python `len` counts
  codepoints, as does `List.length` on `String.data`).
- Python `bytes` are modelled as `List Nat`.
- Python floats appearing as parsed numeric values are modelled as `ℚ`;
  the numeric claims compare values produced by identical decimal
  literals, so binary rounding never affects any stated equality.
  `int(len(text) / 3.5)` equals `2 * len / 7` in natural division and
  `int(max_tokens * 3.5)` equals `7 * max_tokens / 2` exactly for all
  realistic sizes (3.5 is a dyadic rational and the quotient of two Nats
  of denominator 7 is never within double-rounding distance of an
  integer unless exact), so both are embedded with Nat division.
- Fallible code returns `Except`/`Option`.
-/

/-! ## Python character predicates -/

/-- Python `str.isspace` / regex `\s` character set (the Unicode
whitespace characters recognised by CPython for `str`). -/
def pyIsSpace (c : Char) : Bool :=
  [' ', '\t', '\n', '\r', '\x0b', '\x0c', '\x1c', '\x1d', '\x1e', '\x1f',
   '\x85', '\xa0', ' ', ' ', ' ', ' ', ' ',
   '　'].contains c
  || (decide (0x2000 ≤ c.toNat) && decide (c.toNat ≤ 0x200a))

/-- Horizontal whitespace: the character class `[^\S\n]` of the cleaning
regex, i.e. whitespace other than a newline. -/
def hws (c : Char) : Bool :=
  pyIsSpace c && !(c == '\n')

/-- ASCII digit test; Python `str.isdigit` on the ASCII range
(accounting codes are ASCII digit strings). -/
def pyIsDigit (c : Char) : Bool :=
  decide ('0' ≤ c) && decide (c ≤ '9')

/-- Drop matching characters from the end of a list (used for the right
half of Python `str.strip`). -/
def dropEndCh (p : Char → Bool) : List Char → List Char
  | [] => []
  | c :: l =>
    match dropEndCh p l with
    | [] => if p c then [] else [c]
    | r => c :: r

/-- Python `str.strip()` on a character list. -/
def pyStrip (l : List Char) : List Char :=
  dropEndCh pyIsSpace (l.dropWhile pyIsSpace)

/-- Python `str.strip()` on a `String`. -/
def pyStripStr (s : String) : String :=
  String.mk (pyStrip s.data)

/-- Python `str.lower()` (ASCII case folding suffices for the claims,
which only compare against the ASCII tokens null/none). -/
def pyLower (l : List Char) : List Char :=
  l.map Char.toLower

/-! ## text_utils.clean_text

`clean_text` runs `re.sub(r"[^\S\n]+", " ", text)`, then
`re.sub(r"\n{3,}", "\n\n", text)`, then `str.strip()`. -/

/-- `re.sub(r"[^\S\n]+", " ", ·)`: every maximal run of horizontal
whitespace is replaced by a single space. -/
def collapseWs : List Char → List Char
  | [] => []
  | [c] => if hws c then [' '] else [c]
  | c :: d :: rest =>
    if hws c && hws d then collapseWs (d :: rest)
    else (if hws c then ' ' else c) :: collapseWs (d :: rest)

/-- `re.sub(r"\n{3,}", "\n\n", ·)`: every maximal run of three or more
newlines is replaced by exactly two. -/
def collapseNl : List Char → List Char
  | '\n' :: '\n' :: '\n' :: rest => collapseNl ('\n' :: '\n' :: rest)
  | c :: rest => c :: collapseNl rest
  | [] => []
termination_by l => l.length

/-- `text_utils.clean_text`. -/
def clean_text (s : String) : String :=
  String.mk (pyStrip (collapseNl (collapseWs s.data)))

/-! ## text_utils.estimate_tokens and truncate_text -/

/-- `text_utils.estimate_tokens`: `int(len(text) / 3.5)` (exact, see
module comment). -/
def estimate_tokens (s : String) : Nat :=
  if s = "" then 0 else 2 * s.length / 7

/-- The truncation notice appended by `truncate_text` (Python f-string
with both token counts interpolated). -/
def truncWarning (current maxTok : Nat) : String :=
  "\n\n[УВАГА: Текст було скорочено через перевищення ліміту токенів. " ++
  "Оригінальний розмір: ~" ++ toString current ++ " токенів, " ++
  "ліміт: " ++ toString maxTok ++ " токенів.]"

/-- Python `str.rfind("\n")`: highest index of a newline, `-1` if none. -/
def rfindNlIdx (l : List Char) : Int :=
  match l.reverse.findIdx? (· == '\n') with
  | none => -1
  | some j => (l.length : Int) - 1 - (j : Int)

/-- `text_utils.truncate_text`. The float comparison
`last_newline > target_chars * 0.8` is embedded as
`5 * last_newline > 4 * target_chars` over `ℤ`; for the argument ranges
in question the double computation agrees with the exact rational
comparison (at the exact-equality boundary `0.8 * t` rounds back to the
integer `4t/5`, and elsewhere the distance is at least `1/5`, far above
double rounding error). -/
def truncate_text (text : String) (max_tokens : Nat) : String × Bool :=
  let current_tokens := estimate_tokens text
  if current_tokens ≤ max_tokens then (text, false)
  else
    let target_chars := 7 * max_tokens / 2
    let truncated := text.data.take target_chars
    let truncated :=
      if 5 * rfindNlIdx truncated > 4 * (target_chars : Int) then
        truncated.take (rfindNlIdx truncated).toNat
      else truncated
    (String.mk truncated ++ truncWarning current_tokens max_tokens, true)

/-- `text_utils.combine_extracted_texts` over the insertion-ordered
dict of filename to extracted text. -/
def combine_extracted_texts (file_texts : List (String × String)) : String :=
  String.intercalate "\n\n"
    (file_texts.map fun p => "=== FILE: " ++ p.1 ++ " ===\n" ++ p.2)

set_option maxRecDepth 8000

/-! ## Claim C8: clean_text is idempotent

Normal-form predicates: after the first pass no two adjacent horizontal
whitespace characters remain and every horizontal whitespace character
is a plain space (`noPair`, `onlySpace`), no three consecutive newlines
remain (`noTriple`), and the ends are stripped; each pass of the
cleaning pipeline preserves the previously established properties, and
each stage is the identity on its own normal form. -/

def noPair : List Char → Prop
  | a :: b :: l => ¬(hws a = true ∧ hws b = true) ∧ noPair (b :: l)
  | _ => True

def noTriple : List Char → Prop
  | a :: b :: c :: l => ¬(a = '\n' ∧ b = '\n' ∧ c = '\n') ∧ noTriple (b :: c :: l)
  | _ => True

def onlySpace (l : List Char) : Prop := ∀ c ∈ l, hws c = true → c = ' '

/-! ## json_extractor: data model

Python objects produced by `json.loads` are embedded as `Json`.  Python
distinguishes `int` and `float`; both are numeric for `_to_float`, which
also accepts `bool` because Python's `bool` is a subclass of `int`
(`float(True) == 1.0`).  Objects are insertion-ordered association lists
with last-wins duplicate handling, as in a Python dict.  Non-finite
literals (`NaN`, `Infinity`) accepted by `json.loads` are outside the
rational model and are not represented. -/

inductive Json where
  | null : Json
  | bool : Bool → Json
  | intVal : ℤ → Json
  | floatVal : ℚ → Json
  | str : String → Json
  | arr : List Json → Json
  | obj : List (String × Json) → Json

/-- Python `type(x).__name__` for the embedded values. -/
def jsonTypeName : Json → String
  | .null => "NoneType"
  | .bool _ => "bool"
  | .intVal _ => "int"
  | .floatVal _ => "float"
  | .str _ => "str"
  | .arr _ => "list"
  | .obj _ => "dict"

/-- Python dict `d[k] = v`: replace the value in place if the key is
present (keeping its original position), append otherwise. -/
def dictUpdate {α : Type} (l : List (String × α)) (k : String) (v : α) :
    List (String × α) :=
  if l.any (fun p => p.1 == k) then
    l.map (fun p => if p.1 == k then (k, v) else p)
  else l ++ [(k, v)]

/-- Python dict lookup returning an optional value. -/
def dictGet {α : Type} (l : List (String × α)) (k : String) : Option α :=
  (l.find? (fun p => p.1 == k)).map (fun p => p.2)

/-- Python dict `setdefault`. -/
def dictSetdefault {α : Type} (l : List (String × α)) (k : String) (v : α) :
    List (String × α) :=
  if l.any (fun p => p.1 == k) then l else l ++ [(k, v)]

/-! ## A model of `json.loads` (Python standard library)

Recursive-descent JSON parser with fuel; `jsonLoads` rejects trailing
non-whitespace, enforces the strict JSON grammar for numbers (no leading
zeros, mandatory digits around the decimal point) and strings
(control characters rejected, standard escapes); `\u` escapes become
single code points (surrogate-pair combination is not modelled; no claim
touches it). -/

/-- JSON structural whitespace (space, tab, newline, carriage return). -/
def jsonSkipWs (l : List Char) : List Char :=
  l.dropWhile (fun c => c == ' ' || c == '\t' || c == '\n' || c == '\r')

/-- Numeric value of a digit run. -/
def digitsToNat (ds : List Char) : Nat :=
  ds.foldl (fun a c => 10 * a + (c.toNat - '0'.toNat)) 0

/-- Hex digit value. -/
def hexVal (c : Char) : Option Nat :=
  if pyIsDigit c then some (c.toNat - '0'.toNat)
  else if decide ('a' ≤ c) && decide (c ≤ 'f') then some (c.toNat - 'a'.toNat + 10)
  else if decide ('A' ≤ c) && decide (c ≤ 'F') then some (c.toNat - 'A'.toNat + 10)
  else none

/-- Parse the body of a JSON string literal after the opening quote;
returns the content and the remainder after the closing quote. -/
def jsonStrChars : List Char → Option (List Char × List Char)
  | [] => none
  | c :: rest =>
    if c == '"' then some ([], rest)
    else if c == '\\' then
      match rest with
      | [] => none
      | e :: rest' =>
        if e == 'u' then
          match rest' with
          | h1 :: h2 :: h3 :: h4 :: rest'' =>
            match hexVal h1, hexVal h2, hexVal h3, hexVal h4 with
            | some v1, some v2, some v3, some v4 =>
              (jsonStrChars rest'').map (fun p =>
                (Char.ofNat (((v1 * 16 + v2) * 16 + v3) * 16 + v4) :: p.1, p.2))
            | _, _, _, _ => none
          | _ => none
        else
          match
            (if e == '"' then some '"'
             else if e == '\\' then some '\\'
             else if e == '/' then some '/'
             else if e == 'b' then some '\x08'
             else if e == 'f' then some '\x0c'
             else if e == 'n' then some '\n'
             else if e == 'r' then some '\r'
             else if e == 't' then some '\t'
             else none) with
          | some d => (jsonStrChars rest').map (fun p => (d :: p.1, p.2))
          | none => none
    else if decide (c.toNat < 0x20) then none
    else (jsonStrChars rest).map (fun p => (c :: p.1, p.2))

/-- Parse a JSON number; returns `intVal` for pure integer literals and
`floatVal` when a fraction or exponent is present, like Python. -/
def jsonParseNum (l : List Char) : Option (Json × List Char) :=
  let (neg, l1) := if l.head? = some '-' then (true, l.drop 1) else (false, l)
  let ds1 := l1.takeWhile pyIsDigit
  let l2 := l1.dropWhile pyIsDigit
  if ds1 = [] then none
  else if ds1.length > 1 && ds1.head? = some '0' then none
  else
    let (ds2, l3, isFrac) :=
      if l2.head? = some '.' then
        ((l2.drop 1).takeWhile pyIsDigit, (l2.drop 1).dropWhile pyIsDigit, true)
      else ([], l2, false)
    if isFrac && ds2 = [] then none
    else
      let (expOk, expNeg, ds3, l4) :=
        if l3.head? = some 'e' || l3.head? = some 'E' then
          let l3' := l3.drop 1
          let (en, l3'') :=
            if l3'.head? = some '+' then (false, l3'.drop 1)
            else if l3'.head? = some '-' then (true, l3'.drop 1)
            else (false, l3')
          (l3''.takeWhile pyIsDigit ≠ [], en, l3''.takeWhile pyIsDigit,
           l3''.dropWhile pyIsDigit)
        else (true, false, [], l3)
      let hasExp := l3.head? = some 'e' || l3.head? = some 'E'
      if hasExp && ds3 = [] then none
      else if ¬ expOk then none
      else
        let mantissa : ℤ := (if neg then -1 else 1) * (digitsToNat (ds1 ++ ds2) : ℤ)
        let expv : ℤ := (if expNeg then -1 else 1) * (digitsToNat ds3 : ℤ)
        if isFrac || hasExp then
          some (.floatVal ((mantissa : ℚ) / (10 : ℚ) ^ (ds2.length) * (10 : ℚ) ^ expv),
                l4)
        else some (.intVal mantissa, l2)

/-- Task tag for the recursive-descent parser: a value, the members of
an object after `{`, or the elements of an array after `[` (kept as a
single structurally recursive function on fuel so that it reduces
definitionally). -/
inductive PTask where
  | val : List Char → PTask
  | members : List Char → List (String × Json) → PTask
  | elems : List Char → List Json → PTask

/-- Recursive-descent JSON parser core. -/
def jsonParseCore : Nat → PTask → Option (Json × List Char)
  | 0, _ => none
  | fuel + 1, .val l =>
    match l with
    | [] => none
    | c :: rest =>
      if c == '{' then
        match jsonSkipWs rest with
        | '}' :: rest' => some (.obj [], rest')
        | l' => jsonParseCore fuel (.members l' [])
      else if c == '[' then
        match jsonSkipWs rest with
        | ']' :: rest' => some (.arr [], rest')
        | l' => jsonParseCore fuel (.elems l' [])
      else if c == '"' then
        (jsonStrChars rest).map (fun p => (.str (String.mk p.1), p.2))
      else if ("true".data).isPrefixOf l then some (.bool true, l.drop 4)
      else if ("false".data).isPrefixOf l then some (.bool false, l.drop 5)
      else if ("null".data).isPrefixOf l then some (.null, l.drop 4)
      else jsonParseNum l
  | fuel + 1, .members l acc =>
    match l with
    | '"' :: rest =>
      match jsonStrChars rest with
      | none => none
      | some (kcs, rest') =>
        match jsonSkipWs rest' with
        | ':' :: rest'' =>
          match jsonParseCore fuel (.val (jsonSkipWs rest'')) with
          | none => none
          | some (v, rest''') =>
            match jsonSkipWs rest''' with
            | ',' :: rest4 =>
              jsonParseCore fuel
                (.members (jsonSkipWs rest4) (dictUpdate acc (String.mk kcs) v))
            | '}' :: rest4 => some (.obj (dictUpdate acc (String.mk kcs) v), rest4)
            | _ => none
        | _ => none
    | _ => none
  | fuel + 1, .elems l acc =>
    match jsonParseCore fuel (.val l) with
    | none => none
    | some (v, rest) =>
      match jsonSkipWs rest with
      | ',' :: rest' => jsonParseCore fuel (.elems (jsonSkipWs rest') (acc ++ [v]))
      | ']' :: rest' => some (.arr (acc ++ [v]), rest')
      | _ => none

/-- Parse one JSON value (no leading whitespace expected). -/
def jsonParseVal (fuel : Nat) (l : List Char) : Option (Json × List Char) :=
  jsonParseCore fuel (.val l)

/-- `json.loads`: parse a complete JSON document, rejecting trailing
non-whitespace ("Extra data"). -/
def jsonLoads (s : String) : Option Json :=
  match jsonParseVal (s.length + 1) (jsonSkipWs s.data) with
  | some (v, rest) => if jsonSkipWs rest = [] then some v else none
  | none => none

/-! ## json_extractor._extract_json_block

The fence regex search for `(triple-backtick)(?:json)?\s*\n?(.*?)\n?(triple-backtick)`
is embedded procedurally: try each occurrence of three backticks from
the left; after it optionally consume the `json` tag (preferring to
consume it, retrying without on failure, as backtracking does), let
greedy `\s*` absorb the whitespace run (the following lazy group then
starts at the first non-whitespace character), and find the earliest
group end followed by an optional newline and the closing backticks. -/

/-- Lazy search for the earliest position whose tail begins with an
optional newline followed by three backticks; returns the group before
it. -/
def fenceLazyClose : List Char → Option (List Char)
  | [] => none
  | c :: cs =>
    if ("\n```".data).isPrefixOf (c :: cs) || ("```".data).isPrefixOf (c :: cs) then
      some []
    else (fenceLazyClose cs).map (fun g => c :: g)

/-- Match `\s*\n?(.*?)\n?(triple-backtick)` from the given position. -/
def fenceBody (l : List Char) : Option (List Char) :=
  fenceLazyClose (l.dropWhile pyIsSpace)

/-- Match after the opening backticks: optional `json` tag (greedy,
with backtracking), then the fence body. -/
def fenceAfterTicks (l : List Char) : Option (List Char) :=
  if ("json".data).isPrefixOf l then
    match fenceBody (l.drop 4) with
    | some g => some g
    | none => fenceBody l
  else fenceBody l

/-- `re.search` over all candidate match-start positions. -/
def fenceSearch : List Char → Option (List Char)
  | [] => none
  | c :: cs =>
    if ("```".data).isPrefixOf (c :: cs) then
      match fenceAfterTicks ((c :: cs).drop 3) with
      | some g => some g
      | none => fenceSearch cs
    else fenceSearch cs

/-- Brace-depth scan from the first `{`: return the span at which the
depth first returns to zero (string-literal braces are not treated
specially, exactly as in the source). -/
def braceScanAux : List Char → Int → List Char → Option (List Char)
  | [], _, _ => none
  | c :: cs, depth, acc =>
    if c == '{' then braceScanAux cs (depth + 1) (c :: acc)
    else if c == '}' then
      if depth - 1 = 0 then some ((c :: acc).reverse)
      else braceScanAux cs (depth - 1) (c :: acc)
    else braceScanAux cs depth (c :: acc)

/-- `json_extractor._extract_json_block`. -/
def _extract_json_block (text : String) : Except String String :=
  let t := pyStrip text.data
  match fenceSearch t with
  | some g => .ok (String.mk (pyStrip g))
  | none =>
    let tail := t.dropWhile (fun c => !(c == '{'))
    match tail with
    | [] => .error "JSON-об\x27єкт не знайдено у відповіді LLM"
    | _ =>
      match braceScanAux tail 0 [] with
      | some span => .ok (String.mk span)
      | none => .ok (String.mk tail)

/-! ## json_extractor._to_float and _normalize_section -/

/-- A model of Python `float(str)` on the claims' input space: optional
sign, digits with an optional decimal point, optional exponent.
(`inf`/`nan` literals and digit-group underscores, which `float` also
accepts, are not modelled; no claim involves them.) -/
def pyFloatParse (l : List Char) : Option ℚ :=
  let (neg, l1) :=
    if l.head? = some '-' then (true, l.drop 1)
    else if l.head? = some '+' then (false, l.drop 1)
    else (false, l)
  let ds1 := l1.takeWhile pyIsDigit
  let l2 := l1.dropWhile pyIsDigit
  let (ds2, l3) :=
    if l2.head? = some '.' then
      ((l2.drop 1).takeWhile pyIsDigit, (l2.drop 1).dropWhile pyIsDigit)
    else ([], l2)
  if ds1 = [] && ds2 = [] then none
  else
    let (hasExp, expNeg, ds3, l4) :=
      if l3.head? = some 'e' || l3.head? = some 'E' then
        let l3' := l3.drop 1
        let (en, l3'') :=
          if l3'.head? = some '+' then (false, l3'.drop 1)
          else if l3'.head? = some '-' then (true, l3'.drop 1)
          else (false, l3')
        (true, en, l3''.takeWhile pyIsDigit, l3''.dropWhile pyIsDigit)
      else (false, false, [], l3)
    if hasExp && ds3 = [] then none
    else if l4 ≠ [] then none
    else
      let mantissa : ℤ := (if neg then -1 else 1) * (digitsToNat (ds1 ++ ds2) : ℤ)
      let expv : ℤ := (if expNeg then -1 else 1) * (digitsToNat ds3 : ℤ)
      some ((mantissa : ℚ) / (10 : ℚ) ^ (ds2.length) * (10 : ℚ) ^ expv)

/-- String arm of `_to_float`, on the stripped string, with fuel for the
parenthesized-negative recursion (each recursion step removes at least
the two parentheses, so fuel `length + 1` always suffices; the embedding
is exact on every input).  The regex `(.+)` does not match newlines, so
a parenthesized form whose inner text contains a newline is not treated
as a negative. -/
def toFloatStr : Nat → List Char → Option ℚ
  | 0, _ => none
  | fuel + 1, s =>
    if s = [] || s = ['-'] || pyLower s = "null".data || pyLower s = "none".data then
      none
    else if s.head? = some '(' && s.getLast? = some ')' && decide (s.length ≥ 3)
        && !((s.drop 1).dropLast.contains '\n') then
      match toFloatStr fuel (pyStrip ((s.drop 1).dropLast)) with
      | some q => some (-q)
      | none => none
    else
      pyFloatParse
        (((s.map fun c => if c == ',' then '.' else c).filter
          fun c => !(c == ' ') && !(c == '\xa0')))

/-- `json_extractor._to_float`.  `isinstance(val, (int, float))` is true
for Python booleans (`bool` subclasses `int`), so `true`/`false` convert
to `1.0`/`0.0`. -/
def _to_float : Json → Option ℚ
  | .bool b => some (if b then 1 else 0)
  | .intVal n => some (n : ℚ)
  | .floatVal q => some q
  | .str v => toFloatStr (v.length + 1) (pyStrip v.data)
  | _ => none

/-- Key normalization in `_normalize_section`: `str(key).strip()`, strip
an anchored `р` prefix with optional dot (`re.sub` of the anchored
pattern, which fires at most once), strip again. -/
def normKeyStr (key : String) : String :=
  let k := pyStrip key.data
  let k :=
    match k with
    | 'р' :: '.' :: rest => rest
    | 'р' :: rest => rest
    | other => other
  String.mk (pyStrip k)

/-- Python `str.isdigit` (ASCII digits; the accounting codes are ASCII). -/
def isDigitsStr (s : String) : Bool :=
  !(s.data = []) && s.data.all pyIsDigit

/-- One iteration of the `_normalize_section` loop. -/
def normalizeStep (result : List (String × ℚ)) (kv : String × Json) :
    List (String × ℚ) :=
  let k := normKeyStr kv.1
  if isDigitsStr k then
    match _to_float kv.2 with
    | some q => dictUpdate result k q
    | none => result
  else result

/-- `json_extractor._normalize_section`. -/
def _normalize_section (sec : List (String × Json)) : List (String × ℚ) :=
  sec.foldl normalizeStep []

/-! ## json_extractor.parse_llm_json -/

/-- Value of the validated dict returned by `parse_llm_json`: either a
JSON value carried through unchanged, or one of the three normalized
float maps. -/
inductive PyVal where
  | raw : Json → PyVal
  | fmap : List (String × ℚ) → PyVal

/-- The required keys listed in Python `sorted` order. -/
def requiredKeysSorted : List String :=
  ["balance_end", "balance_start", "income_current"]

/-- The missing required keys, in sorted order (Python
`sorted(REQUIRED_KEYS - set(data.keys()))`). -/
def missingKeys (entries : List (String × Json)) : List String :=
  requiredKeysSorted.filter (fun k => !(entries.any (fun p => p.1 == k)))

/-- Step 4 of `parse_llm_json` for one of the three section keys:
require an object value and replace it with the normalized map.  (The
`fmap` case cannot arise on dicts fresh from `json.loads`, whose values
are all `raw`; a float map is itself a Python dict of already-normalized
entries, re-normalizing which is the identity.) -/
def sectionStep (d : List (String × PyVal)) (key : String) :
    Except String (List (String × PyVal)) :=
  match (dictGet d key).getD (PyVal.raw (Json.obj [])) with
  | .raw (.obj sec) => .ok (dictUpdate d key (.fmap (_normalize_section sec)))
  | .raw other =>
    .error ("Ключ \x27" ++ key ++ "\x27 має бути об\x27єктом, отримано: " ++
      jsonTypeName other)
  | .fmap m => .ok (dictUpdate d key (.fmap m))

/-- `json_extractor.parse_llm_json`.  The Python `JSONDecodeError` detail
interpolated into the parse-failure message is not modelled (it is a
deterministic function of the extracted JSON text; no claim inspects
it). -/
def parse_llm_json (raw_response : String) :
    Except String (List (String × PyVal)) :=
  if raw_response = "" || pyStripStr raw_response = "" then
    .error "LLM повернув порожню відповідь"
  else
    match _extract_json_block raw_response with
    | .error e => .error e
    | .ok json_str =>
      match jsonLoads json_str with
      | none => .error "Не вдалося розпарсити JSON"
      | some (.obj entries) =>
        if missingKeys entries ≠ [] then
          .error ("Відсутні обов\x27язкові ключі: " ++
            String.intercalate ", " (missingKeys entries))
        else
          let d0 : List (String × PyVal) :=
            entries.map (fun p => (p.1, PyVal.raw p.2))
          match sectionStep d0 "balance_start" with
          | .error e => .error e
          | .ok d1 =>
            match sectionStep d1 "balance_end" with
            | .error e => .error e
            | .ok d2 =>
              match sectionStep d2 "income_current" with
              | .error e => .error e
              | .ok d3 =>
                .ok (dictSetdefault
                      (dictSetdefault d3 "company_name"
                        (PyVal.raw (Json.str "Невідома компанія")))
                      "period" (PyVal.raw (Json.str "—")))
      | some data => .error ("Очікувався JSON-об\x27єкт, отримано: " ++ jsonTypeName data)

def btChar : Char := "`".data.headD ' '

/-! ## pdf_extractor: extract_text_from_pdf

A PDF document is modelled as its page list; each page carries the
native text that `page.get_text()` yields and the PNG bytes that
`page.get_pixmap(dpi=d).tobytes("png")` would produce for a given dpi.
The embedding additionally returns the sequence of OCR invocations
(the image bytes passed to `ocr_func`, in order), which the source
observes through its `ocr_pages` counter and log. -/

structure PdfPage where
  nativeText : String
  pixmapPng : Nat → List Nat

/-- `pdf_extractor.MIN_TEXT_LENGTH`. -/
def MIN_TEXT_LENGTH : Nat := 50

/-- One iteration of the page loop: the page's emitted block and the
OCR calls made for it. -/
def pdfPageBlock (ocr : List Nat → String) (idx : Nat) (p : PdfPage) :
    String × List (List Nat) :=
  let text := p.nativeText
  if (pyStrip text.data).length < MIN_TEXT_LENGTH then
    let img := p.pixmapPng 300
    ("--- Page " ++ toString (idx + 1) ++ " ---\n" ++ ocr img, [img])
  else
    ("--- Page " ++ toString (idx + 1) ++ " ---\n" ++ text, [])

/-- `pdf_extractor.extract_text_from_pdf`: the combined text and the
OCR-invocation trace. -/
def extract_text_from_pdf (pages : List PdfPage) (ocr : List Nat → String) :
    String × List (List Nat) :=
  let blocks := (pages.enum).map (fun ip => pdfPageBlock ocr ip.1 ip.2)
  (String.intercalate "\n\n" (blocks.map Prod.fst), (blocks.map Prod.snd).flatten)

/-! ## extractor: dispatcher -/

/-- `extractor.ALLOWED_EXTENSIONS` (a Python set; only membership and a
sorted listing are observed). -/
def ALLOWED_EXTENSIONS : List String :=
  [".pdf", ".png", ".jpg", ".jpeg", ".xlsx", ".docx"]

/-- `sorted(ALLOWED_EXTENSIONS)` as interpolated into the 422 message. -/
def allowedExtsSorted : List String :=
  [".docx", ".jpeg", ".jpg", ".pdf", ".png", ".xlsx"]

/-- `extractor.IMAGE_EXTENSIONS`. -/
def IMAGE_EXTENSIONS : List String := [".png", ".jpg", ".jpeg"]

/-- `extractor._get_extension`: the lowercased suffix from the last dot,
or the empty string (`str.lower` modelled on ASCII, which covers real
extensions). -/
def _get_extension (filename : String) : String :=
  match filename.data.reverse.findIdx? (· == '.') with
  | none => ""
  | some j =>
    String.mk ((filename.data.drop (filename.data.length - 1 - j)).map Char.toLower)

/-- `extractor.is_allowed_extension`. -/
def is_allowed_extension (filename : String) : Bool :=
  ALLOWED_EXTENSIONS.contains (_get_extension filename)

/-- The four format extractors, externalized: each turns file bytes into
raw text or fails (they wrap external parsing libraries). -/
structure ExtractorEnv where
  pdfE : List Nat → Except String String
  imageE : List Nat → Except String String
  excelE : List Nat → Except String String
  docxE : List Nat → Except String String

/-- `extractor.extract_text`: dispatch on the extension, then clean. -/
def extract_text (env : ExtractorEnv) (filename : String) (file_bytes : List Nat) :
    Except String String :=
  let ext := _get_extension filename
  let raw :=
    if ext = ".pdf" then env.pdfE file_bytes
    else if IMAGE_EXTENSIONS.contains ext then env.imageE file_bytes
    else if ext = ".xlsx" then env.excelE file_bytes
    else if ext = ".docx" then env.docxE file_bytes
    else .error ("Unsupported file extension: " ++ ext)
  raw.map clean_text

/-! ## routers.analyze: data model

`CalculationResult` comes from the external calculation engine; the
`rating` enum is carried as its rendered string.  Request timings
(`time.time()` differences) are real-time observations and are not
modelled; no claim mentions them. -/

structure UpFile where
  filename : Option String
  content : List Nat
  deriving DecidableEq

structure AppConfig where
  max_upload_size_mb : Nat
  max_total_tokens_estimate : Nat
  extraction_prompt_file : String
  report_prompt_file : String

structure CalcRow where
  name : String
  formula : String
  result : String ⊕ ℚ
  rating : String
  rating_label : String
  norm : String

structure CalcSection where
  title : String
  rows : List CalcRow

structure CalcLimitation where
  indicator : String
  reason : String
  missing_rows : String

structure CalculationResult where
  company_name : String
  period : String
  sections : List CalcSection
  limitations : List CalcLimitation

/-- Python `f"{x:.4f}"` on a float result: round half-even to four
decimal places and render with a fixed four-digit fraction (binary
double artefacts such as negative zero are not modelled; no claim
touches the rendering). -/
def formatFixed4 (q : ℚ) : String :=
  let scaled := q * 10000
  let fl := ⌊scaled⌋
  let r := scaled - fl
  let n := if r < 1/2 then fl else if 1/2 < r then fl + 1
           else if fl % 2 = 0 then fl else fl + 1
  let sign := if n < 0 then "-" else ""
  let m := n.natAbs
  let frac := toString (m % 10000)
  sign ++ toString (m / 10000) ++ "." ++
    String.mk (List.replicate (4 - frac.length) '0') ++ frac

/-- `analyze._format_calculations_for_llm`. -/
def _format_calculations_for_llm (c : CalculationResult) : String :=
  let baseLines := ["Компанія: " ++ c.company_name, "Період: " ++ c.period, ""]
  let secLines := (c.sections.enum).flatMap (fun is =>
    [toString (is.1 + 1) ++ ". " ++ is.2.title] ++
    (if is.2.rows.isEmpty then ["   (немає даних для розрахунку)"] else []) ++
    is.2.rows.map (fun row =>
      let result_str := match row.result with
        | .inl s => s
        | .inr q => formatFixed4 q
      "   - " ++ row.name ++ ": " ++ row.formula ++ " = " ++ result_str ++
        " [" ++ row.rating ++ ":" ++ row.rating_label ++ "] (норма: " ++
        row.norm ++ ")") ++
    [""])
  let limLines :=
    if c.limitations.isEmpty then
      ["ОБМЕЖЕННЯ: немає — усі показники розраховано."]
    else
      "ОБМЕЖЕННЯ:" ::
        c.limitations.map (fun lim =>
          "   - " ++ lim.indicator ++ ": " ++ lim.reason ++ " (" ++
            lim.missing_rows ++ ")")
  String.intercalate "\n" (baseLines ++ secLines ++ limLines)

/-! ## routers.analyze: the request handler

The handler is embedded with an explicit event trace recording each
effect in order: reading a file's bytes, running extraction for a file,
and issuing each of the two LLM calls.  External collaborators (prompt
files, the LLM backend, the calculation engine) are environment
parameters. -/

inductive PipeEv where
  | readFile : Option String → PipeEv
  | extractFile : String → PipeEv
  | llmJson : PipeEv
  | llmReport : PipeEv

structure PipeEnv where
  x : ExtractorEnv
  loadPrompt : String → Except String String
  queryJson : String → String → Except String String
  queryReport : String → String → Except String String
  calculate : List (String × PyVal) → CalculationResult

structure HErr where
  status : Nat
  detail : Json

structure AnalyzeResp where
  status : String
  report : String
  extracted_data : List (String × PyVal)
  files_processed : List String
  tokens_estimated : Nat
  failed_files : Option (List Json)
  warning : Option String

/-- `analyze.MAX_FILES`. -/
def MAX_FILES : Nat := 10

/-- First index of a substring occurrence. -/
def findSubIdx (pat : List Char) : List Char → Option Nat
  | [] => if pat = [] then some 0 else none
  | c :: cs =>
    if pat.isPrefixOf (c :: cs) then some 0
    else (findSubIdx pat cs).map (· + 1)

/-- Python `pat in s`. -/
def strContains (s pat : String) : Bool :=
  (findSubIdx pat.data s.data).isSome

/-- Python `s.split(pat)[0]`. -/
def takeBeforeFirst (s pat : String) : String :=
  match findSubIdx pat.data s.data with
  | some i => String.mk (s.data.take i)
  | none => s

/-- Python `str.replace` (all non-overlapping occurrences, left to
right; the needle is nonempty at every call site, and fuel equal to the
haystack length is then always sufficient). -/
def replaceAllAux (old new : List Char) : Nat → List Char → List Char
  | 0, l => l
  | fuel + 1, l =>
    match l with
    | [] => []
    | c :: cs =>
      if old.isPrefixOf (c :: cs) then
        new ++ replaceAllAux old new fuel ((c :: cs).drop old.length)
      else c :: replaceAllAux old new fuel cs

/-- Python `s.replace(old, new)`. -/
def pyReplace (s old new : String) : String :=
  String.mk (replaceAllAux old.data new.data s.data.length s.data)

/-- The file-reading loop: reads each upload's bytes, accumulating the
total size and failing fast with 413 when the limit is crossed. -/
def readFilesLoop (config : AppConfig) (total : Nat) :
    List UpFile → Except HErr (List (String × List Nat)) × List PipeEv
  | [] => (.ok [], [])
  | f :: rest =>
    let content := f.content
    let total' := total + content.length
    if total' > config.max_upload_size_mb * 1024 * 1024 then
      (.error ⟨413, .str ("Total upload size exceeds " ++
         toString config.max_upload_size_mb ++ " MB limit")⟩,
       [PipeEv.readFile f.filename])
    else
      match readFilesLoop config total' rest with
      | (.ok l, evs) =>
        (.ok ((f.filename.getD "unknown", content) :: l), PipeEv.readFile f.filename :: evs)
      | (.error e, evs) => (.error e, PipeEv.readFile f.filename :: evs)

/-- One iteration of the extraction loop: on success store the cleaned
text in the filename-keyed dict (later duplicates overwrite the value in
place); on failure append a `{filename, error}` record. -/
def extractStep (x : ExtractorEnv)
    (acc : List (String × String) × List Json × List PipeEv)
    (p : String × List Nat) :
    List (String × String) × List Json × List PipeEv :=
  match extract_text x p.1 p.2 with
  | .ok t => (dictUpdate acc.1 p.1 t, acc.2.1, acc.2.2 ++ [PipeEv.extractFile p.1])
  | .error e =>
    (acc.1,
     acc.2.1 ++ [Json.obj [("filename", .str p.1), ("error", .str e)]],
     acc.2.2 ++ [PipeEv.extractFile p.1])

/-- The per-file extraction phase. -/
def extractFiles (x : ExtractorEnv) (data : List (String × List Nat)) :
    List (String × String) × List Json × List PipeEv :=
  data.foldl (extractStep x) ([], [], [])

/-- `analyze.analyze_documents`.  (The source computes the
`{documents}` substitution before testing for the section marker and
then discards it when the marker is present; here the substitution is
performed only in the marker-absent branch, which is the same value.) -/
def analyze_documents (env : PipeEnv) (config : AppConfig)
    (files : List UpFile) (user_instructions : String) :
    Except HErr AnalyzeResp × List PipeEv :=
  if files.length < 1 || files.length > MAX_FILES then
    (.error ⟨400, .str ("Please upload between 1 and " ++ toString MAX_FILES ++
       " files. Received: " ++ toString files.length)⟩, [])
  else
    match files.find? (fun f => !(is_allowed_extension (f.filename.getD ""))) with
    | some f =>
      (.error ⟨422, .str ("Unsupported file type: \x27" ++ f.filename.getD "" ++
         "\x27. Allowed: " ++ String.intercalate ", " allowedExtsSorted)⟩, [])
    | none =>
      match readFilesLoop config 0 files with
      | (.error e, evs) => (.error e, evs)
      | (.ok file_data, evs0) =>
        let ex := extractFiles env.x file_data
        let file_texts := ex.1
        let failed_files := ex.2.1
        let evs1 := ex.2.2
        if file_texts.isEmpty then
          (.error ⟨422, .obj
             [("message", .str "Failed to extract text from all uploaded files"),
              ("failed_files", .arr failed_files)]⟩, evs0 ++ evs1)
        else
          let combined_text := combine_extracted_texts file_texts
          let tokens_estimated := estimate_tokens combined_text
          let tr :=
            if tokens_estimated > config.max_total_tokens_estimate then
              truncate_text combined_text config.max_total_tokens_estimate
            else (combined_text, false)
          let combined_text2 := tr.1
          let was_truncated := tr.2
          let tokens_estimated2 :=
            if tokens_estimated > config.max_total_tokens_estimate then
              estimate_tokens combined_text2
            else tokens_estimated
          match env.loadPrompt config.extraction_prompt_file with
          | .error e =>
            (.error ⟨500, .str ("Extraction prompt error: " ++ e)⟩, evs0 ++ evs1)
          | .ok extraction_prompt =>
            let sysUser :=
              if strContains extraction_prompt "--- ДОКУМЕНТИ ---" then
                (pyStripStr (takeBeforeFirst extraction_prompt "--- ДОКУМЕНТИ ---"),
                 "--- ДОКУМЕНТИ ---\n" ++ combined_text2)
              else
                ("", pyReplace extraction_prompt "\x7bdocuments\x7d" combined_text2)
            match env.queryJson sysUser.1 sysUser.2 with
            | .error e =>
              (.error ⟨500, .str ("Data extraction failed: " ++ e)⟩,
               evs0 ++ evs1 ++ [PipeEv.llmJson])
            | .ok raw_json_response =>
              match parse_llm_json raw_json_response with
              | .error e =>
                (.error ⟨500, .obj
                   [("message", .str ("Failed to parse extracted data: " ++ e)),
                    ("raw_response_preview",
                     .str (String.mk (raw_json_response.data.take 1000)))]⟩,
                 evs0 ++ evs1 ++ [PipeEv.llmJson])
              | .ok extracted_data =>
                let calc_result := env.calculate extracted_data
                let calculations_text := _format_calculations_for_llm calc_result
                match env.loadPrompt config.report_prompt_file with
                | .error e =>
                  (.error ⟨500, .str ("Report prompt error: " ++ e)⟩,
                   evs0 ++ evs1 ++ [PipeEv.llmJson])
                | .ok report_prompt =>
                  let sysUser2 :=
                    if strContains report_prompt "--- РОЗРАХУНКИ ---" then
                      (pyStripStr (takeBeforeFirst report_prompt "--- РОЗРАХУНКИ ---"),
                       "--- РОЗРАХУНКИ ---\n" ++ calculations_text)
                    else
                      ("", pyReplace report_prompt "\x7bcalculations\x7d" calculations_text)
                  let report_user_content :=
                    if pyStripStr user_instructions ≠ "" then
                      sysUser2.2 ++ "\n\n--- ДОДАТКОВІ ІНСТРУКЦІЇ ---\n" ++
                        pyStripStr user_instructions
                    else sysUser2.2
                  match env.queryReport sysUser2.1 report_user_content with
                  | .error e =>
                    (.error ⟨500, .str ("Report generation failed: " ++ e)⟩,
                     evs0 ++ evs1 ++ [PipeEv.llmJson, PipeEv.llmReport])
                  | .ok report_html0 =>
                    (.ok
                       { status := "success"
                         report := pyReplace report_html0 "\n" "<br>\n"
                         extracted_data := extracted_data
                         files_processed := file_texts.map Prod.fst
                         tokens_estimated := tokens_estimated2
                         failed_files :=
                           if failed_files.isEmpty then none else some failed_files
                         warning :=
                           if was_truncated then
                             some "Document text was truncated due to token limit"
                           else none },
                     evs0 ++ evs1 ++ [PipeEv.llmJson, PipeEv.llmReport])

/-- Python dict key order over the upload list: first occurrence wins
the position, duplicates are dropped. -/
def dedupKeepFirst (names : List String) : List String :=
  names.foldl (fun acc n => if acc.contains n then acc else acc ++ [n]) []

/-! ## Theorems -/

/-! ## Claims C4 and C5: truncate_text -/

/-- Token estimate of a string built from an explicit character list. -/
theorem estimate_tokens_mk (l : List Char) :
    estimate_tokens (String.mk l) = if l = [] then 0 else 2 * l.length / 7 := by
  have h : (String.mk l = "") = (l = []) :=
    propext ⟨fun hc => congrArg String.data hc, fun hc => by rw [hc]⟩
  simp only [estimate_tokens, h]
  rfl

/-- C4 (amended): `truncate_text` is a no-op (input returned unchanged,
flag `false`) whenever `estimate_tokens text ≤ maxTokens`; otherwise the
flag is `true` and the text placed before the appended truncation notice
is a prefix of the input of at most `⌊maxTokens * 3.5⌋` characters, so
that prefix's own token estimate is within the budget.  The full
returned text, notice included, can exceed the input's token estimate
when the input is short; see the counterexample
`truncate_text_estimate_can_grow`. -/
theorem truncate_text_budget (text : String) (m : Nat) :
    (estimate_tokens text ≤ m → truncate_text text m = (text, false)) ∧
    (m < estimate_tokens text →
      (truncate_text text m).2 = true ∧
      ∃ n, n ≤ 7 * m / 2 ∧
        (truncate_text text m).1 =
          String.mk (text.data.take n) ++ truncWarning (estimate_tokens text) m ∧
        estimate_tokens (String.mk (text.data.take n)) ≤ m) := by
  constructor
  · intro h
    simp [truncate_text, h]
  · intro h
    have h' : ¬ (estimate_tokens text ≤ m) := by omega
    have est_le : ∀ n, n ≤ 7 * m / 2 →
        estimate_tokens (String.mk (text.data.take n)) ≤ m := by
      intro n hn
      rw [estimate_tokens_mk]
      by_cases hz : text.data.take n = []
      · simp [hz]
      · rw [if_neg hz]
        have hlen : (text.data.take n).length ≤ n := by
          simp [List.length_take]
        have h2 : (text.data.take n).length ≤ 7 * m / 2 := le_trans hlen hn
        omega
    have heq : truncate_text text m =
        (String.mk
          (if 5 * rfindNlIdx (text.data.take (7 * m / 2)) > 4 * ((7 * m / 2 : Nat) : Int)
           then (text.data.take (7 * m / 2)).take
                  (rfindNlIdx (text.data.take (7 * m / 2))).toNat
           else text.data.take (7 * m / 2))
          ++ truncWarning (estimate_tokens text) m, true) := by
      unfold truncate_text
      rw [if_neg h']
    rw [heq]
    refine ⟨rfl, ?_⟩
    by_cases hnl : 5 * rfindNlIdx (text.data.take (7 * m / 2)) > 4 * ((7 * m / 2 : Nat) : Int)
    · rw [if_pos hnl, List.take_take]
      exact ⟨min (rfindNlIdx (text.data.take (7 * m / 2))).toNat (7 * m / 2),
        min_le_right _ _, rfl, est_le _ (min_le_right _ _)⟩
    · rw [if_neg hnl]
      exact ⟨7 * m / 2, le_refl _, rfl, est_le _ (le_refl _)⟩

/-- Witness for `truncate_text_budget` at concrete inputs, discharging
each hypothesis. -/
theorem truncate_text_budget_witness :
    truncate_text "abc" 100 = ("abc", false) ∧
    (truncate_text (String.mk (List.replicate 39 'a')) 10).2 = true :=
  ⟨(truncate_text_budget "abc" 100).1 (by decide),
   ((truncate_text_budget (String.mk (List.replicate 39 'a')) 10).2 (by decide)).1⟩

/-- Counterexample for C4 as stated: for a 39-character input at budget
10, the input estimates to 11 tokens (over budget), yet the returned
text's token estimate strictly exceeds the input's, because the appended
truncation notice outweighs the characters removed. -/
theorem truncate_text_estimate_can_grow :
    10 < estimate_tokens (String.mk (List.replicate 39 'a')) ∧
    estimate_tokens (String.mk (List.replicate 39 'a')) <
      estimate_tokens (truncate_text (String.mk (List.replicate 39 'a')) 10).1 := by
  decide

/-- C5 (amended): `truncate_text` is a pure function of its inputs, and
whenever no truncation occurred (flag `false`), re-truncating the
returned text at the same budget returns it unchanged with flag `false`.
When truncation did occur, the output (notice included) generally
exceeds the budget again and is truncated further; see the
counterexample `truncate_text_not_idempotent`. -/
theorem truncate_text_noop_idempotent (text : String) (m : Nat)
    (h : (truncate_text text m).2 = false) :
    truncate_text (truncate_text text m).1 m = ((truncate_text text m).1, false) := by
  by_cases hc : estimate_tokens text ≤ m
  · have hfix : truncate_text text m = (text, false) := by simp [truncate_text, hc]
    rw [hfix]
    simp [truncate_text, hc]
  · exfalso
    have hT : (truncate_text text m).2 = true := by simp [truncate_text, hc]
    rw [h] at hT
    exact Bool.false_ne_true hT

/-- Witness for `truncate_text_noop_idempotent` at a concrete input. -/
theorem truncate_text_noop_idempotent_witness :
    truncate_text (truncate_text "ab" 5).1 5 = ((truncate_text "ab" 5).1, false) :=
  truncate_text_noop_idempotent "ab" 5 (by decide)

/-- Counterexample for C5 as stated: after an actual truncation at
budget 10, re-truncating the output at the same budget does not return
it unchanged with flag `false` — it truncates again. -/
theorem truncate_text_not_idempotent :
    ¬ (truncate_text (truncate_text (String.mk (List.replicate 39 'a')) 10).1 10
        = ((truncate_text (String.mk (List.replicate 39 'a')) 10).1, false)) := by
  decide

theorem noPair_tail {a : Char} {l : List Char} (h : noPair (a :: l)) : noPair l := by
  cases l with
  | nil => trivial
  | cons b t => exact h.2

theorem noTriple_tail {a : Char} {l : List Char} (h : noTriple (a :: l)) : noTriple l := by
  cases l with
  | nil => trivial
  | cons b t =>
    cases t with
    | nil => trivial
    | cons c t' => exact h.2

theorem noPair_append_left {l t : List Char} (h : noPair (l ++ t)) : noPair l := by
  induction l with
  | nil => trivial
  | cons a l ih =>
    cases l with
    | nil => trivial
    | cons b l' => exact ⟨h.1, ih h.2⟩

theorem noTriple_append_left {l t : List Char} (h : noTriple (l ++ t)) : noTriple l := by
  induction l with
  | nil => trivial
  | cons a l ih =>
    cases l with
    | nil => trivial
    | cons b l' =>
      cases l' with
      | nil => trivial
      | cons c l'' => exact ⟨h.1, ih h.2⟩

theorem collapseWs_cons (c : Char) (rest : List Char) :
    ∃ t, collapseWs (c :: rest) = (if hws c then ' ' else c) :: t := by
  induction rest generalizing c with
  | nil =>
    by_cases h : hws c
    · exact ⟨[], by simp [collapseWs, h]⟩
    · exact ⟨[], by simp [collapseWs, h]⟩
  | cons d rest ih =>
    by_cases h : (hws c && hws d) = true
    · obtain ⟨hc, hd⟩ := Bool.and_eq_true _ _ |>.mp h
      obtain ⟨t, ht⟩ := ih d
      refine ⟨t, ?_⟩
      simp only [collapseWs, h, if_true]
      rw [ht, hc, hd]
      simp
    · refine ⟨collapseWs (d :: rest), ?_⟩
      simp only [collapseWs]
      rw [if_neg h]

theorem onlySpace_collapseWs (l : List Char) : onlySpace (collapseWs l) := by
  induction l using collapseWs.induct with
  | case1 => intro c hc; simp [collapseWs] at hc
  | case2 c h =>
    intro x hx
    simp [collapseWs, h] at hx
    subst hx
    intro _; rfl
  | case3 c h =>
    intro x hx
    simp [collapseWs, h] at hx
    subst hx
    intro hcc
    exact absurd hcc h
  | case4 c d rest h ih =>
    simp only [collapseWs, h, if_true]
    exact ih
  | case5 c d rest h ih =>
    simp only [collapseWs, h, if_false]
    intro x hx
    rcases List.mem_cons.mp hx with heq | hmem
    · subst heq
      by_cases hc : hws c
      · simp [hc]
      · simp [hc]
    · exact ih x hmem

theorem noPair_collapseWs (l : List Char) : noPair (collapseWs l) := by
  induction l using collapseWs.induct with
  | case1 => trivial
  | case2 c h => simp [collapseWs, h, noPair]
  | case3 c h => simp [collapseWs, h, noPair]
  | case4 c d rest h ih =>
    simp only [collapseWs, h, if_true]
    exact ih
  | case5 c d rest h ih =>
    simp only [collapseWs, h, if_false]
    obtain ⟨t, ht⟩ := collapseWs_cons d rest
    rw [ht]
    rw [ht] at ih
    refine ⟨?_, ih⟩
    rintro ⟨h1, h2⟩
    by_cases hd : hws d = true
    · simp only [hd, if_true] at h2
      by_cases hc : hws c = true
      · exact h (by simp [hc, hd])
      · simp only [hc, if_false] at h1
        exact hc h1
    · simp only [hd, if_false] at h2
      exact hd h2

theorem collapseWs_eq_self {l : List Char} (h1 : noPair l) (h2 : onlySpace l) :
    collapseWs l = l := by
  induction l using collapseWs.induct with
  | case1 => rfl
  | case2 c h =>
    have : c = ' ' := h2 c (by simp) h
    simp [collapseWs, h, this]
  | case3 c h => simp [collapseWs, h]
  | case4 c d rest h ih =>
    exfalso
    obtain ⟨hc, hd⟩ := Bool.and_eq_true _ _ |>.mp h
    exact h1.1 ⟨hc, hd⟩
  | case5 c d rest h ih =>
    simp only [collapseWs, h, if_false]
    have htail := ih (noPair_tail h1) (fun x hx => h2 x (List.mem_cons_of_mem _ hx))
    rw [htail]
    by_cases hc : hws c = true
    · have : c = ' ' := h2 c (by simp) hc
      simp [hc, this]
    · simp [hc]

theorem collapseNl_nil : collapseNl [] = [] := by
  simp [collapseNl]

theorem collapseNl_three (rest : List Char) :
    collapseNl ('\n' :: '\n' :: '\n' :: rest) = collapseNl ('\n' :: '\n' :: rest) := by
  simp [collapseNl]

theorem collapseNl_cons_of (c : Char) (rest : List Char)
    (h : ∀ r, c = '\n' → rest = '\n' :: '\n' :: r → False) :
    collapseNl (c :: rest) = c :: collapseNl rest := by
  rw [collapseNl]
  exact h

theorem collapseNl_cons_shape (c : Char) (rest : List Char) :
    ∃ t, collapseNl (c :: rest) = c :: t := by
  suffices h : ∀ l, ∀ c rest, l = c :: rest → ∃ t, collapseNl l = c :: t from
    h _ c rest rfl
  intro l
  induction l using collapseNl.induct with
  | case1 rest ih =>
    intro c r hl
    obtain ⟨t, ht⟩ := ih '\n' ('\n' :: rest) rfl
    have hc : c = '\n' := (List.cons.inj hl.symm).1
    exact ⟨t, by rw [collapseNl_three, ht, hc]⟩
  | case2 c' rest' h ih =>
    intro c r hl
    have hc : c' = c := (List.cons.inj hl).1
    subst hc
    exact ⟨collapseNl rest', collapseNl_cons_of _ _ h⟩
  | case3 =>
    intro c r hl
    simp at hl

theorem twoNl_collapseNl {l : List Char}
    (h : ∃ r, collapseNl l = '\n' :: '\n' :: r) : ∃ r, l = '\n' :: '\n' :: r := by
  obtain ⟨r, hr⟩ := h
  rcases l with _ | ⟨x, _ | ⟨y, rest⟩⟩
  · simp [collapseNl] at hr
  · rw [collapseNl_cons_of x [] (by intro r' _ h'; simp at h')] at hr
    simp [collapseNl] at hr
  · by_cases hxy : x = '\n' ∧ y = '\n'
    · exact ⟨rest, by rw [hxy.1, hxy.2]⟩
    · have hcond : ∀ r', x = '\n' → y :: rest = '\n' :: '\n' :: r' → False := by
        intro r' hx h'
        exact hxy ⟨hx, (List.cons.inj h').1⟩
      rw [collapseNl_cons_of x (y :: rest) hcond] at hr
      obtain ⟨hx, htl⟩ := List.cons.inj hr
      obtain ⟨t, ht⟩ := collapseNl_cons_shape y rest
      rw [ht] at htl
      exact absurd ⟨hx, (List.cons.inj htl).1⟩ hxy

theorem noTriple_collapseNl (l : List Char) : noTriple (collapseNl l) := by
  induction l using collapseNl.induct with
  | case1 rest ih =>
    rw [collapseNl_three]
    exact ih
  | case2 c rest h ih =>
    rw [collapseNl_cons_of c rest h]
    rcases hcr : collapseNl rest with _ | ⟨x, _ | ⟨y, t⟩⟩
    · trivial
    · trivial
    · rw [hcr] at ih
      refine ⟨?_, ih⟩
      rintro ⟨hc, hx, hy⟩
      obtain ⟨r', hr'⟩ := twoNl_collapseNl ⟨t, by rw [hcr, hx, hy]⟩
      exact h r' hc hr'
  | case3 => rw [collapseNl_nil]; trivial

theorem collapseNl_eq_self {l : List Char} (h : noTriple l) : collapseNl l = l := by
  induction l using collapseNl.induct with
  | case1 rest ih =>
    exact absurd ⟨rfl, rfl, rfl⟩ h.1
  | case2 c rest hc ih =>
    rw [collapseNl_cons_of c rest hc, ih (noTriple_tail h)]
  | case3 => exact collapseNl_nil

theorem mem_collapseNl {x : Char} {l : List Char} (h : x ∈ collapseNl l) : x ∈ l := by
  induction l using collapseNl.induct with
  | case1 rest ih =>
    rw [collapseNl_three] at h
    have := ih h
    simp only [List.mem_cons] at this ⊢
    tauto
  | case2 c rest hc ih =>
    rw [collapseNl_cons_of c rest hc] at h
    rcases List.mem_cons.mp h with h1 | h2
    · exact h1 ▸ List.mem_cons_self _ _
    · exact List.mem_cons_of_mem _ (ih h2)
  | case3 => exact absurd h (by simp [collapseNl])

theorem noPair_collapseNl {l : List Char} (h : noPair l) : noPair (collapseNl l) := by
  induction l using collapseNl.induct with
  | case1 rest ih =>
    rw [collapseNl_three]
    exact ih h.2
  | case2 c rest hc ih =>
    rw [collapseNl_cons_of c rest hc]
    have ihr := ih (noPair_tail h)
    rcases hcr : collapseNl rest with _ | ⟨x, t⟩
    · trivial
    · rw [hcr] at ihr
      refine ⟨?_, ihr⟩
      rcases rest with _ | ⟨w, r''⟩
      · simp [collapseNl] at hcr
      · obtain ⟨t', ht'⟩ := collapseNl_cons_shape w r''
        rw [ht'] at hcr
        have hw : w = x := (List.cons.inj hcr).1
        exact hw ▸ h.1
  | case3 => rw [collapseNl_nil]; trivial

theorem dropEndCh_append (p : Char → Bool) (l : List Char) :
    ∃ t, dropEndCh p l ++ t = l := by
  induction l with
  | nil => exact ⟨[], rfl⟩
  | cons c l ih =>
    obtain ⟨t, ht⟩ := ih
    rcases hr : dropEndCh p l with _ | ⟨x, r⟩
    · by_cases hp : p c
      · exact ⟨c :: l, by simp [dropEndCh, hr, hp]⟩
      · exact ⟨l, by simp [dropEndCh, hr, hp]⟩
    · refine ⟨t, ?_⟩
      rw [hr] at ht
      simp only [dropEndCh, hr]
      rw [List.cons_append, ht]

theorem noPair_dropWhile (p : Char → Bool) {l : List Char} (h : noPair l) :
    noPair (l.dropWhile p) := by
  induction l with
  | nil => trivial
  | cons c l ih =>
    by_cases hp : p c
    · rw [List.dropWhile_cons_of_pos hp]
      exact ih (noPair_tail h)
    · rw [List.dropWhile_cons_of_neg hp]
      exact h

theorem noTriple_dropWhile (p : Char → Bool) {l : List Char} (h : noTriple l) :
    noTriple (l.dropWhile p) := by
  induction l with
  | nil => trivial
  | cons c l ih =>
    by_cases hp : p c
    · rw [List.dropWhile_cons_of_pos hp]
      exact ih (noTriple_tail h)
    · rw [List.dropWhile_cons_of_neg hp]
      exact h

theorem mem_dropWhile (p : Char → Bool) {x : Char} {l : List Char}
    (h : x ∈ l.dropWhile p) : x ∈ l := by
  induction l with
  | nil => simp at h
  | cons c l ih =>
    by_cases hp : p c
    · rw [List.dropWhile_cons_of_pos hp] at h
      exact List.mem_cons_of_mem _ (ih h)
    · rw [List.dropWhile_cons_of_neg hp] at h
      exact h

theorem noPair_pyStrip {l : List Char} (h : noPair l) : noPair (pyStrip l) := by
  obtain ⟨t, ht⟩ := dropEndCh_append pyIsSpace (l.dropWhile pyIsSpace)
  exact noPair_append_left (ht ▸ noPair_dropWhile pyIsSpace h)

theorem noTriple_pyStrip {l : List Char} (h : noTriple l) : noTriple (pyStrip l) := by
  obtain ⟨t, ht⟩ := dropEndCh_append pyIsSpace (l.dropWhile pyIsSpace)
  exact noTriple_append_left (ht ▸ noTriple_dropWhile pyIsSpace h)

theorem mem_pyStrip {x : Char} {l : List Char} (h : x ∈ pyStrip l) : x ∈ l := by
  obtain ⟨t, ht⟩ := dropEndCh_append pyIsSpace (l.dropWhile pyIsSpace)
  apply mem_dropWhile pyIsSpace (l := l)
  rw [← ht]
  exact List.mem_append_left _ h

theorem headFail_dropWhile (p : Char → Bool) (l : List Char) :
    ∀ c, (l.dropWhile p).head? = some c → p c = false := by
  induction l with
  | nil => intro c hc; simp at hc
  | cons d l ih =>
    intro c hc
    by_cases hp : p d
    · rw [List.dropWhile_cons_of_pos hp] at hc
      exact ih c hc
    · rw [List.dropWhile_cons_of_neg hp] at hc
      simp at hc
      rw [← hc]
      exact Bool.not_eq_true _ ▸ Bool.of_not_eq_true hp

theorem dropWhile_eq_self_of_headFail (p : Char → Bool) {l : List Char}
    (h : ∀ c, l.head? = some c → p c = false) : l.dropWhile p = l := by
  cases l with
  | nil => rfl
  | cons c l =>
    have : p c = false := h c rfl
    rw [List.dropWhile_cons_of_neg (by simp [this])]

theorem lastFail_dropEndCh (p : Char → Bool) (l : List Char) :
    ∀ c, (dropEndCh p l).getLast? = some c → p c = false := by
  induction l with
  | nil => intro c hc; simp [dropEndCh] at hc
  | cons d l ih =>
    intro c hc
    rcases hr : dropEndCh p l with _ | ⟨x, r⟩
    · by_cases hp : p d
      · simp [dropEndCh, hr, hp] at hc
      · simp [dropEndCh, hr, hp] at hc
        rw [← hc]
        exact Bool.of_not_eq_true hp
    · simp only [dropEndCh, hr] at hc
      rw [List.getLast?_cons_cons] at hc
      rw [← hr] at hc
      exact ih c hc

theorem dropEndCh_eq_self_of_lastFail (p : Char → Bool) {l : List Char}
    (h : ∀ c, l.getLast? = some c → p c = false) : dropEndCh p l = l := by
  induction l with
  | nil => rfl
  | cons c l ih =>
    cases l with
    | nil =>
      have : p c = false := h c rfl
      simp [dropEndCh, this]
    | cons d l' =>
      have htail : dropEndCh p (d :: l') = d :: l' := by
        apply ih
        intro x hx
        apply h
        rw [List.getLast?_cons_cons]
        exact hx
      conv_lhs => rw [dropEndCh]
      rw [htail]

theorem head_of_dropEndCh (p : Char → Bool) (l : List Char) {c : Char}
    (hc : (dropEndCh p l).head? = some c) : l.head? = some c := by
  obtain ⟨t, ht⟩ := dropEndCh_append p l
  rcases hr : dropEndCh p l with _ | ⟨x, r⟩
  · rw [hr] at hc; simp at hc
  · rw [hr] at hc ht
    simp at hc
    rw [← ht, ← hc]
    rfl

theorem pyStrip_idem (l : List Char) : pyStrip (pyStrip l) = pyStrip l := by
  have hhead : ∀ c, (pyStrip l).head? = some c → pyIsSpace c = false := by
    intro c hc
    exact headFail_dropWhile pyIsSpace l c (head_of_dropEndCh pyIsSpace _ hc)
  have hlast : ∀ c, (pyStrip l).getLast? = some c → pyIsSpace c = false :=
    lastFail_dropEndCh pyIsSpace _
  show dropEndCh pyIsSpace (List.dropWhile pyIsSpace (pyStrip l)) = pyStrip l
  rw [dropWhile_eq_self_of_headFail pyIsSpace hhead]
  exact dropEndCh_eq_self_of_lastFail pyIsSpace hlast

/-- C8 (confirmed): the text-cleaning step is idempotent — collapsing
runs of horizontal whitespace to one space, collapsing 3+ consecutive
newlines to exactly two, and trimming leading/trailing whitespace, a
second application of `clean_text` is a no-op. -/
theorem clean_text_idempotent (s : String) : clean_text (clean_text s) = clean_text s := by
  have hv : ∀ l : List Char,
      noPair l → onlySpace l → noTriple l →
      pyStrip (collapseNl (collapseWs (pyStrip l))) = pyStrip l := by
    intro l hp ho ht
    rw [collapseWs_eq_self (noPair_pyStrip hp) (fun c hc => ho c (mem_pyStrip hc)),
        collapseNl_eq_self (noTriple_pyStrip ht), pyStrip_idem]
  show String.mk (pyStrip (collapseNl (collapseWs (pyStrip (collapseNl (collapseWs s.data)))))) =
       String.mk (pyStrip (collapseNl (collapseWs s.data)))
  rw [hv]
  · exact noPair_collapseNl (noPair_collapseWs _)
  · intro c hc hh
    exact onlySpace_collapseWs _ c (mem_collapseNl hc) hh
  · exact noTriple_collapseNl _

/-! ## Dict lemmas -/

theorem find_map_update_other {α : Type} (l : List (String × α)) (k k' : String)
    (v : α) (h : k' ≠ k) :
    (l.map (fun p => if p.1 == k then (k, v) else p)).find? (fun p => p.1 == k') =
      l.find? (fun p => p.1 == k') := by
  induction l with
  | nil => rfl
  | cons a l ih =>
    by_cases ha : (a.1 == k) = true
    · have hak : a.1 = k := by simpa using ha
      have h1 : (k == k') = false := by
        simp only [beq_eq_false_iff_ne, ne_eq]
        exact fun hc => h hc.symm
      have h2 : (a.1 == k') = false := by
        simp only [beq_eq_false_iff_ne, ne_eq, hak]
        exact fun hc => h hc.symm
      rw [List.map_cons, if_pos ha, List.find?_cons_of_neg _ (by simp [h1]),
        List.find?_cons_of_neg _ (by simp [h2])]
      exact ih
    · have ha' : (a.1 == k) = false := by revert ha; cases a.1 == k <;> simp
      cases hk' : (a.1 == k') with
      | true =>
        rw [List.map_cons, if_neg (by simp [ha']), List.find?_cons_of_pos _ (by simp [hk']),
          List.find?_cons_of_pos _ (by simp [hk'])]
      | false =>
        rw [List.map_cons, if_neg (by simp [ha']), List.find?_cons_of_neg _ (by simp [hk']),
          List.find?_cons_of_neg _ (by simp [hk'])]
        exact ih

theorem find_append_single_other {α : Type} (l : List (String × α)) (k k' : String)
    (v : α) (h : k' ≠ k) :
    (l ++ [(k, v)]).find? (fun p => p.1 == k') = l.find? (fun p => p.1 == k') := by
  induction l with
  | nil =>
    have h1 : (k == k') = false := by
      simp only [beq_eq_false_iff_ne, ne_eq]
      exact fun hc => h hc.symm
    simp [List.find?, h1]
  | cons a l ih =>
    simp only [List.cons_append, List.find?]
    cases hk' : (a.1 == k') with
    | true => rfl
    | false => exact ih

theorem dictGet_dictUpdate_other {α : Type} (l : List (String × α)) (k k' : String)
    (v : α) (h : k' ≠ k) :
    dictGet (dictUpdate l k v) k' = dictGet l k' := by
  unfold dictUpdate dictGet
  by_cases hany : l.any (fun p => p.1 == k)
  · rw [if_pos hany, find_map_update_other l k k' v h]
  · rw [if_neg hany, find_append_single_other l k k' v h]

theorem dictGet_map_update {α : Type} (l : List (String × α)) (k : String) (v : α) :
    dictGet (l.map (fun p => if p.1 == k then (k, v) else p)) k =
      if l.any (fun p => p.1 == k) then some v else none := by
  induction l with
  | nil => rfl
  | cons a l ih =>
    by_cases ha : (a.1 == k) = true
    · simp [dictGet, List.find?, ha]
    · have ha' : (a.1 == k) = false := by revert ha; cases a.1 == k <;> simp
      simp only [List.map_cons, ha', if_false, List.any_cons, Bool.false_or]
      rw [← ih]
      simp [dictGet, List.find?, ha']

theorem dictGet_append_single {α : Type} (l : List (String × α)) (k : String) (v : α)
    (h : l.any (fun p => p.1 == k) = false) :
    dictGet (l ++ [(k, v)]) k = some v := by
  induction l with
  | nil => simp [dictGet, List.find?]
  | cons a l ih =>
    simp only [List.any_cons, Bool.or_eq_false_iff] at h
    have := ih h.2
    simp only [dictGet, List.cons_append, List.find?, h.1] at this ⊢
    exact this

theorem dictGet_dictUpdate_self {α : Type} (l : List (String × α)) (k : String) (v : α) :
    dictGet (dictUpdate l k v) k = some v := by
  unfold dictUpdate
  by_cases hany : (l.any (fun p => p.1 == k)) = true
  · rw [if_pos hany, dictGet_map_update, if_pos hany]
  · have hb : l.any (fun p => p.1 == k) = false := by
      revert hany; cases l.any (fun p => p.1 == k) <;> simp
    rw [if_neg (by simp [hb])]
    exact dictGet_append_single l k v hb

/-! ## Claim C9: boolean section values -/

theorem normSec_foldl_lookup (post : List (String × Json)) (acc : List (String × ℚ))
    (k : String) (h : ∀ p ∈ post, normKeyStr p.1 ≠ k) :
    dictGet (post.foldl normalizeStep acc) k = dictGet acc k := by
  induction post generalizing acc with
  | nil => rfl
  | cons a post ih =>
    rw [List.foldl_cons]
    rw [ih _ (fun p hp => h p (List.mem_cons_of_mem _ hp))]
    unfold normalizeStep
    by_cases hd : isDigitsStr (normKeyStr a.1)
    · rw [if_pos hd]
      cases hf : _to_float a.2 with
      | none => rfl
      | some q =>
        exact dictGet_dictUpdate_other _ _ _ _ (fun hc => h a (List.mem_cons_self _ _) hc.symm)
    · rw [if_neg hd]

/-- C9 (confirmed): a JSON boolean under a digit-keyed code is not
dropped or treated as absent by `_normalize_section`: since Python's
`bool` is a subclass of `int`, `_to_float` maps `true` to `1.0` and
`false` to `0.0`, and the code appears in the normalized map with that
value (provided no later entry of the section normalizes to the same
code, which would overwrite it by the dict semantics). -/
theorem normalize_section_bool (b : Bool) :
    _to_float (.bool b) = some (if b then 1 else 0) ∧
    ∀ (key : String) (pre post : List (String × Json)),
      isDigitsStr (normKeyStr key) = true →
      (∀ p ∈ post, normKeyStr p.1 ≠ normKeyStr key) →
      dictGet (_normalize_section (pre ++ (key, Json.bool b) :: post)) (normKeyStr key)
        = some (if b then 1 else 0) := by
  refine ⟨rfl, ?_⟩
  intro key pre post hdig hpost
  unfold _normalize_section
  rw [List.foldl_append, List.foldl_cons]
  rw [normSec_foldl_lookup post _ _ hpost]
  have hstep : normalizeStep (pre.foldl normalizeStep []) (key, Json.bool b) =
      dictUpdate (pre.foldl normalizeStep []) (normKeyStr key) (if b then 1 else 0) := by
    unfold normalizeStep
    rw [if_pos hdig]
    rfl
  rw [hstep]
  exact dictGet_dictUpdate_self _ _ _

/-- Witness for `normalize_section_bool` at concrete inputs. -/
theorem normalize_section_bool_witness :
    dictGet (_normalize_section
        [("1000", Json.str "5"), ("р.2000", Json.bool true), ("3000", Json.intVal 7)])
      (normKeyStr "р.2000") = some 1 :=
  (normalize_section_bool true).2 "р.2000"
    [("1000", Json.str "5")] [("3000", Json.intVal 7)] (by decide)
    (by intro p hp; fin_cases hp; decide)

/-! ## Claim C1: numeric normalization -/

/-- Decimal value computed by `pyFloatParse` for "732.8", evaluated. -/
theorem comma_decimal_value :
    (((7328 : ℤ) : ℚ) / 10 ^ 1 * 10 ^ (0 : ℤ)) = (732.8 : ℚ) := by
  norm_num

/-- Decimal value computed by `pyFloatParse` for "150.5", evaluated and
negated. -/
theorem paren_decimal_value :
    (-(((1505 : ℤ) : ℚ) / 10 ^ 1 * 10 ^ (0 : ℤ))) = (-150.5 : ℚ) := by
  norm_num

/-- C1 (confirmed): the repair parser's numeric normalization maps the
parenthesized string "(150.5)" to the negative float `-150.5` and the
comma-decimal string "732,8" to `732.8` (the stated round-trip input
parses with `balance_start = {"1000": 732.8}`), and each of the values
`""`, `"-"`, `"null"`, `"none"` (the last two case-insensitively) is
omitted from the resulting map entirely — never mapped to `0.0`. -/
theorem to_float_normalization :
    _to_float (.str "(150.5)") = some (-150.5 : ℚ) ∧
    _to_float (.str "732,8") = some (732.8 : ℚ) ∧
    parse_llm_json
        "\x7b\"balance_start\": \x7b\"1000\": \"732,8\"\x7d, \"balance_end\": \x7b\x7d, \"income_current\": \x7b\x7d\x7d"
      = .ok
        [("balance_start", PyVal.fmap [("1000", (732.8 : ℚ))]),
         ("balance_end", PyVal.fmap []),
         ("income_current", PyVal.fmap []),
         ("company_name", PyVal.raw (Json.str "Невідома компанія")),
         ("period", PyVal.raw (Json.str "—"))] ∧
    (∀ v : String,
      (pyStrip v.data = [] ∨ pyStrip v.data = ['-'] ∨
       pyLower (pyStrip v.data) = "null".data ∨ pyLower (pyStrip v.data) = "none".data) →
      _to_float (.str v) = none ∧
      ∀ key : String, _normalize_section [(key, Json.str v)] = []) := by
  refine ⟨?_, ?_, ?_, ?_⟩
  · have h : _to_float (.str "(150.5)") =
        some (-(((1505 : ℤ) : ℚ) / 10 ^ 1 * 10 ^ (0 : ℤ))) := rfl
    rw [h, paren_decimal_value]
  · have h : _to_float (.str "732,8") =
        some (((7328 : ℤ) : ℚ) / 10 ^ 1 * 10 ^ (0 : ℤ)) := rfl
    rw [h, comma_decimal_value]
  · have h : parse_llm_json
        "\x7b\"balance_start\": \x7b\"1000\": \"732,8\"\x7d, \"balance_end\": \x7b\x7d, \"income_current\": \x7b\x7d\x7d"
      = .ok
        [("balance_start", PyVal.fmap
            [("1000", ((7328 : ℤ) : ℚ) / 10 ^ 1 * 10 ^ (0 : ℤ))]),
         ("balance_end", PyVal.fmap []),
         ("income_current", PyVal.fmap []),
         ("company_name", PyVal.raw (Json.str "Невідома компанія")),
         ("period", PyVal.raw (Json.str "—"))] := rfl
    rw [h, comma_decimal_value]
  · intro v hv
    have hnone : _to_float (.str v) = none := by
      show toFloatStr (v.length + 1) (pyStrip v.data) = none
      rw [toFloatStr]
      rcases hv with h | h | h | h
      · simp [h]
      · simp [h]
      · simp [h]
      · simp [h]
    refine ⟨hnone, ?_⟩
    intro key
    unfold _normalize_section
    rw [List.foldl_cons, List.foldl_nil]
    show normalizeStep [] (key, Json.str v) = []
    unfold normalizeStep
    by_cases hd : isDigitsStr (normKeyStr (key, Json.str v).1)
    · rw [if_pos hd]
      show (match _to_float (Json.str v) with
            | some q => dictUpdate [] (normKeyStr (key, Json.str v).1) q
            | none => ([] : List (String × ℚ))) = []
      rw [hnone]
    · rw [if_neg hd]

/-- Witness for `to_float_normalization`, discharging the universal
part's hypothesis at concrete null-marker values. -/
theorem to_float_normalization_witness :
    (_to_float (.str " NULL ") = none ∧
      ∀ key : String, _normalize_section [(key, Json.str " NULL ")] = []) ∧
    (_to_float (.str "None") = none ∧
      ∀ key : String, _normalize_section [(key, Json.str "None")] = []) ∧
    (_to_float (.str "-") = none ∧
      ∀ key : String, _normalize_section [(key, Json.str "-")] = []) ∧
    (_to_float (.str "") = none ∧
      ∀ key : String, _normalize_section [(key, Json.str "")] = []) :=
  ⟨to_float_normalization.2.2.2 " NULL " (by decide),
   to_float_normalization.2.2.2 "None" (by decide),
   to_float_normalization.2.2.2 "-" (by decide),
   to_float_normalization.2.2.2 "" (by decide)⟩

/-! ## Claim C2: missing required keys -/

/-- C2 (confirmed): when the extracted JSON text parses to an object
lacking at least one of the three required top-level keys,
`parse_llm_json` fails with a message listing exactly the missing keys,
in sorted order (Python string order: balance_end < balance_start <
income_current), and no others. -/
theorem parse_llm_json_missing_keys (raw s : String) (entries : List (String × Json))
    (h0 : pyStrip raw.data ≠ [])
    (h1 : _extract_json_block raw = .ok s)
    (h2 : jsonLoads s = some (.obj entries))
    (h3 : missingKeys entries ≠ []) :
    parse_llm_json raw =
      .error ("Відсутні обов\x27язкові ключі: " ++
        String.intercalate ", " (missingKeys entries)) ∧
    (∀ k, k ∈ missingKeys entries ↔
      (k ∈ requiredKeysSorted ∧ ∀ p ∈ entries, p.1 ≠ k)) ∧
    List.Chain' (· < ·) (missingKeys entries) := by
  refine ⟨?_, ?_, ?_⟩
  · have hne : (raw = "" || pyStripStr raw = "") = false := by
      have hr : raw ≠ "" := by
        intro hc
        apply h0
        rw [hc]
        rfl
      have hs' : pyStripStr raw ≠ "" := by
        intro hc
        exact h0 (congrArg String.data hc)
      simp [hr, hs']
    unfold parse_llm_json
    rw [hne]
    simp only [Bool.false_eq_true, if_false, h1, h2]
    rw [if_pos h3]
  · intro k
    unfold missingKeys
    rw [List.mem_filter]
    constructor
    · rintro ⟨hmem, hpred⟩
      refine ⟨hmem, ?_⟩
      intro p hp hc
      have : entries.any (fun p => p.1 == k) = true :=
        List.any_eq_true.mpr ⟨p, hp, by simp [hc]⟩
      rw [this] at hpred
      simp at hpred
    · rintro ⟨hmem, hall⟩
      refine ⟨hmem, ?_⟩
      have : entries.any (fun p => p.1 == k) = false := by
        rw [List.any_eq_false]
        intro p hp
        simp
        exact hall p hp
      rw [this]
      rfl
  · unfold missingKeys requiredKeysSorted
    have hsub : (["balance_end", "balance_start", "income_current"].filter
        (fun k => !(entries.any (fun p => p.1 == k)))).Sublist
        ["balance_end", "balance_start", "income_current"] :=
      List.filter_sublist _
    have hchain : List.Chain' (· < ·)
        (["balance_end", "balance_start", "income_current"] : List String) := by
      refine List.chain'_cons.mpr ⟨?_, List.chain'_cons.mpr ⟨?_, List.chain'_singleton _⟩⟩
      · rw [String.lt_iff_toList_lt]; decide
      · rw [String.lt_iff_toList_lt]; decide
    exact List.Chain'.sublist hchain hsub

/-- Witness for `parse_llm_json_missing_keys` at a concrete response
whose object carries only `balance_start`. -/
theorem parse_llm_json_missing_keys_witness :
    parse_llm_json "\x7b\"balance_start\": \x7b\x7d\x7d" =
      .error "Відсутні обов\x27язкові ключі: balance_end, income_current" :=
  (parse_llm_json_missing_keys "\x7b\"balance_start\": \x7b\x7d\x7d"
    "\x7b\"balance_start\": \x7b\x7d\x7d" [("balance_start", Json.obj [])]
    (by decide) rfl rfl (by decide)).1.trans rfl

theorem dropEndCh_cons (p : Char → Bool) (c : Char) (l : List Char) :
    dropEndCh p (c :: l) =
      match dropEndCh p l with
      | [] => if p c then [] else [c]
      | r => c :: r := rfl

theorem fenceLazyClose_close (J : List Char) (h : btChar ∉ J) :
    fenceLazyClose (J ++ "\n```".data) = some J := by
  induction J with
  | nil => rfl
  | cons c J ih =>
    have hc : c ≠ btChar := fun hc => h (hc ▸ List.mem_cons_self c J)
    have hJ : btChar ∉ J := fun hm => h (List.mem_cons_of_mem _ hm)
    have e2 : "\n```".data = '\n' :: btChar :: btChar :: btChar :: [] := rfl
    have e1 : "```".data = btChar :: btChar :: btChar :: [] := rfl
    have hcond : (("\n```".data).isPrefixOf (c :: (J ++ "\n```".data)) ||
        ("```".data).isPrefixOf (c :: (J ++ "\n```".data))) = false := by
      have h1 : ("```".data).isPrefixOf (c :: (J ++ "\n```".data)) = false := by
        rw [e1]
        simp [List.isPrefixOf]
        intro hbc
        exact absurd hbc.symm hc
      have h2 : ("\n```".data).isPrefixOf (c :: (J ++ "\n```".data)) = false := by
        rw [e2]
        by_cases hcn : c = '\n'
        · subst hcn
          rcases hJshape : J with _ | ⟨d, J'⟩
          · simp [List.isPrefixOf]
            decide
          · have hd : d ≠ btChar := by
              intro hdc
              exact hJ (hJshape ▸ (hdc ▸ List.mem_cons_self d J'))
            simp [List.isPrefixOf]
            intro hbd
            exact absurd hbd.symm hd
        · simp [List.isPrefixOf]
          intro hnc
          exact absurd hnc.symm hcn
      rw [h1, h2]
      rfl
    rw [List.cons_append, fenceLazyClose, hcond]
    simp only [Bool.false_eq_true, if_false]
    rw [ih hJ]
    rfl

theorem fenceSearch_none {l : List Char} (h : btChar ∉ l) : fenceSearch l = none := by
  induction l with
  | nil => rfl
  | cons c cs ih =>
    have hc : c ≠ btChar := fun hc => h (hc ▸ List.mem_cons_self c cs)
    have hcs : btChar ∉ cs := fun hm => h (List.mem_cons_of_mem _ hm)
    have e1 : "```".data = btChar :: btChar :: btChar :: [] := rfl
    have hcond : ("```".data).isPrefixOf (c :: cs) = false := by
      rw [e1]
      simp [List.isPrefixOf]
      intro hbc
      exact absurd hbc.symm hc
    rw [fenceSearch, hcond]
    simp only [Bool.false_eq_true, if_false]
    exact ih hcs

theorem braceScanAux_extend (junk : List Char) :
    ∀ (l : List Char) (d : Int) (acc r : List Char),
      braceScanAux l d acc = some r → braceScanAux (l ++ junk) d acc = some r := by
  intro l
  induction l with
  | nil => intro d acc r h; exact absurd h (by simp [braceScanAux])
  | cons c cs ih =>
    intro d acc r h
    rw [List.cons_append]
    rw [braceScanAux] at h ⊢
    by_cases h1 : (c == '{') = true
    · rw [if_pos h1] at h ⊢
      exact ih _ _ _ h
    · rw [if_neg (by simp_all)] at h ⊢
      by_cases h2 : (c == '}') = true
      · rw [if_pos h2] at h ⊢
        by_cases h3 : d - 1 = 0
        · rw [if_pos h3] at h ⊢
          exact h
        · rw [if_neg h3] at h ⊢
          exact ih _ _ _ h
      · rw [if_neg (by simp_all)] at h ⊢
        exact ih _ _ _ h

theorem dropWhile_append_headFail (p : Char → Bool) (A B : List Char)
    (h : ∀ c, B.head? = some c → p c = false) :
    (A ++ B).dropWhile p = A.dropWhile p ++ B := by
  induction A with
  | nil =>
    simp only [List.nil_append]
    exact dropWhile_eq_self_of_headFail p h
  | cons a A ih =>
    by_cases ha : p a = true
    · rw [List.cons_append, List.dropWhile_cons_of_pos ha, List.dropWhile_cons_of_pos ha]
      exact ih
    · rw [List.cons_append, List.dropWhile_cons_of_neg (by simp_all),
        List.dropWhile_cons_of_neg (by simp_all), List.cons_append]

theorem dropEndCh_append_lastFail (p : Char → Bool) (A B : List Char)
    (h : ∀ c, A.getLast? = some c → p c = false) :
    dropEndCh p (A ++ B) = A ++ dropEndCh p B := by
  induction A with
  | nil => rfl
  | cons a A ih =>
    rcases hA : A with _ | ⟨x, A'⟩
    · have hpa : p a = false := h a (by rw [hA]; rfl)
      rw [List.cons_append, List.nil_append, dropEndCh]
      rcases hdb : dropEndCh p B with _ | ⟨y, r⟩
      · simp [hpa]
      · rfl
    · have hA2 : dropEndCh p (A ++ B) = A ++ dropEndCh p B := by
        apply ih
        intro c hc
        apply h
        rw [hA] at hc ⊢
        rw [List.getLast?_cons_cons]
        exact hc
      rw [hA] at hA2
      simp only [List.cons_append] at hA2 ⊢
      rw [dropEndCh_cons, hA2]

theorem pyStrip_eq_self_of {l : List Char}
    (hhead : ∀ c, l.head? = some c → pyIsSpace c = false)
    (hlast : ∀ c, l.getLast? = some c → pyIsSpace c = false) : pyStrip l = l := by
  unfold pyStrip
  rw [dropWhile_eq_self_of_headFail pyIsSpace hhead]
  exact dropEndCh_eq_self_of_lastFail pyIsSpace hlast

theorem extract_via_fence {text : String} {g : List Char}
    (h1 : fenceSearch (pyStrip text.data) = some g) :
    _extract_json_block text = .ok (String.mk (pyStrip g)) := by
  unfold _extract_json_block
  simp only [h1]

theorem extract_via_braces {text : String} {span : List Char}
    (h1 : fenceSearch (pyStrip text.data) = none)
    (h2 : (pyStrip text.data).dropWhile (fun c => !(c == '{')) ≠ [])
    (h3 : braceScanAux ((pyStrip text.data).dropWhile (fun c => !(c == '{'))) 0 []
            = some span) :
    _extract_json_block text = .ok (String.mk span) := by
  unfold _extract_json_block
  simp only [h1]
  obtain ⟨x, xs, htail⟩ := List.exists_cons_of_ne_nil h2
  rw [htail, ← htail, h3]

theorem fenceBody_at_json (J' : List Char) (ht : btChar ∉ '{' :: J') :
    fenceBody ('\n' :: '{' :: (J' ++ "\n```".data)) = some ('{' :: J') := by
  unfold fenceBody
  have hdw : ('\n' :: '{' :: (J' ++ "\n```".data)).dropWhile pyIsSpace
      = '{' :: (J' ++ "\n```".data) := by
    rw [List.dropWhile_cons_of_pos (by decide), List.dropWhile_cons_of_neg (by decide)]
  rw [hdw]
  have h := fenceLazyClose_close ('{' :: J') ht
  rw [List.cons_append] at h
  exact h

theorem fenceSearch_tagged (J' : List Char) (ht : btChar ∉ '{' :: J') :
    fenceSearch ("```json\n".data ++ ('{' :: J') ++ "\n```".data) = some ('{' :: J') := by
  have e : "```json\n".data ++ ('{' :: J') ++ "\n```".data
      = btChar :: btChar :: btChar :: 'j' :: 's' :: 'o' :: 'n' :: '\n' ::
        ('{' :: (J' ++ "\n```".data)) := rfl
  rw [e]
  have hpref : ("```".data).isPrefixOf
      (btChar :: btChar :: btChar :: 'j' :: 's' :: 'o' :: 'n' :: '\n' ::
        ('{' :: (J' ++ "\n```".data))) = true := rfl
  rw [fenceSearch, if_pos hpref]
  have hjson : ("json".data).isPrefixOf
      ('j' :: 's' :: 'o' :: 'n' :: '\n' :: '{' :: (J' ++ "\n```".data)) = true := rfl
  have hticks : fenceAfterTicks
      ('j' :: 's' :: 'o' :: 'n' :: '\n' :: '{' :: (J' ++ "\n```".data))
      = some ('{' :: J') := by
    unfold fenceAfterTicks
    rw [if_pos hjson,
      show ('j' :: 's' :: 'o' :: 'n' :: '\n' :: '{' :: (J' ++ "\n```".data)).drop 4
        = '\n' :: '{' :: (J' ++ "\n```".data) from rfl,
      fenceBody_at_json J' ht]
  rw [show (btChar :: btChar :: btChar :: 'j' :: 's' :: 'o' :: 'n' :: '\n' ::
        ('{' :: (J' ++ "\n```".data))).drop 3
      = 'j' :: 's' :: 'o' :: 'n' :: '\n' :: '{' :: (J' ++ "\n```".data) from rfl,
    hticks]

theorem fenceSearch_untagged (J' : List Char) (ht : btChar ∉ '{' :: J') :
    fenceSearch ("```\n".data ++ ('{' :: J') ++ "\n```".data) = some ('{' :: J') := by
  have e : "```\n".data ++ ('{' :: J') ++ "\n```".data
      = btChar :: btChar :: btChar :: '\n' :: ('{' :: (J' ++ "\n```".data)) := rfl
  rw [e]
  have hpref : ("```".data).isPrefixOf
      (btChar :: btChar :: btChar :: '\n' :: ('{' :: (J' ++ "\n```".data))) = true := rfl
  rw [fenceSearch, if_pos hpref]
  have hjson : ("json".data).isPrefixOf
      ('\n' :: '{' :: (J' ++ "\n```".data)) = false := rfl
  have hticks : fenceAfterTicks ('\n' :: '{' :: (J' ++ "\n```".data))
      = some ('{' :: J') := by
    unfold fenceAfterTicks
    rw [if_neg (by rw [hjson]; exact Bool.false_ne_true), fenceBody_at_json J' ht]
  rw [show (btChar :: btChar :: btChar :: '\n' :: ('{' :: (J' ++ "\n```".data))).drop 3
      = '\n' :: '{' :: (J' ++ "\n```".data) from rfl,
    hticks]

theorem pyStrip_fenced (adata : List Char) (J : List Char)
    (hhead : ∀ c, (adata ++ J ++ "\n```".data).head? = some c → pyIsSpace c = false) :
    pyStrip (adata ++ J ++ "\n```".data) = adata ++ J ++ "\n```".data := by
  apply pyStrip_eq_self_of hhead
  intro c hc
  rw [List.append_assoc, List.getLast?_append, List.getLast?_append] at hc
  have : ("\n```".data).getLast? = some btChar := rfl
  rw [this] at hc
  simp only [Option.or] at hc
  cases hc
  decide

theorem extract_fenced_tagged (J : List Char) (ht : btChar ∉ J)
    (hh : J.head? = some '{') (hs : pyStrip J = J) :
    _extract_json_block (String.mk ("```json\n".data ++ J ++ "\n```".data)) =
      .ok (String.mk J) := by
  obtain ⟨J', hJ⟩ : ∃ J', J = '{' :: J' := by
    rcases J with _ | ⟨c, J'⟩
    · simp at hh
    · simp at hh
      exact ⟨J', by rw [hh]⟩
  subst hJ
  have hW : pyStrip ("```json\n".data ++ ('{' :: J') ++ "\n```".data)
      = "```json\n".data ++ ('{' :: J') ++ "\n```".data := by
    apply pyStrip_fenced
    intro c hc
    have : ("```json\n".data ++ ('{' :: J') ++ "\n```".data).head? = some btChar := rfl
    rw [this] at hc
    cases hc
    decide
  have hdata : (String.mk ("```json\n".data ++ ('{' :: J') ++ "\n```".data)).data
      = "```json\n".data ++ ('{' :: J') ++ "\n```".data := rfl
  have hfs : fenceSearch
      (pyStrip (String.mk ("```json\n".data ++ ('{' :: J') ++ "\n```".data)).data)
      = some ('{' :: J') := by
    rw [hdata, hW]
    exact fenceSearch_tagged J' ht
  rw [extract_via_fence hfs, hs]

theorem extract_fenced_untagged (J : List Char) (ht : btChar ∉ J)
    (hh : J.head? = some '{') (hs : pyStrip J = J) :
    _extract_json_block (String.mk ("```\n".data ++ J ++ "\n```".data)) =
      .ok (String.mk J) := by
  obtain ⟨J', hJ⟩ : ∃ J', J = '{' :: J' := by
    rcases J with _ | ⟨c, J'⟩
    · simp at hh
    · simp at hh
      exact ⟨J', by rw [hh]⟩
  subst hJ
  have hW : pyStrip ("```\n".data ++ ('{' :: J') ++ "\n```".data)
      = "```\n".data ++ ('{' :: J') ++ "\n```".data := by
    apply pyStrip_fenced
    intro c hc
    have : ("```\n".data ++ ('{' :: J') ++ "\n```".data).head? = some btChar := rfl
    rw [this] at hc
    cases hc
    decide
  have hdata : (String.mk ("```\n".data ++ ('{' :: J') ++ "\n```".data)).data
      = "```\n".data ++ ('{' :: J') ++ "\n```".data := rfl
  have hfs : fenceSearch
      (pyStrip (String.mk ("```\n".data ++ ('{' :: J') ++ "\n```".data)).data)
      = some ('{' :: J') := by
    rw [hdata, hW]
    exact fenceSearch_untagged J' ht
  rw [extract_via_fence hfs, hs]

theorem lastFail_of_stripped {J : List Char} (hs : pyStrip J = J) :
    ∀ c, J.getLast? = some c → pyIsSpace c = false := by
  intro c hc
  rw [← hs] at hc
  exact lastFail_dropEndCh pyIsSpace (J.dropWhile pyIsSpace) c hc

theorem extract_bare (J : List Char) (ht : btChar ∉ J)
    (hh : J.head? = some '{') (hs : pyStrip J = J)
    (hscan : braceScanAux J 0 [] = some J) :
    _extract_json_block (String.mk J) = .ok (String.mk J) := by
  obtain ⟨J', hJ⟩ : ∃ J', J = '{' :: J' := by
    rcases J with _ | ⟨c, J'⟩
    · simp at hh
    · simp at hh
      exact ⟨J', by rw [hh]⟩
  have hdata : (String.mk J).data = J := rfl
  have hdw : J.dropWhile (fun c => !(c == '{')) = J := by
    rw [hJ, List.dropWhile_cons_of_neg (by decide)]
  apply extract_via_braces
  · rw [hdata, hs]
    exact fenceSearch_none ht
  · rw [hdata, hs, hdw, hJ]
    simp
  · rw [hdata, hs, hdw]
    exact hscan

theorem extract_prose (pre J post : List Char)
    (hpre : ∀ c ∈ pre, c ≠ btChar ∧ c ≠ '{')
    (hpost : ∀ c ∈ post, c ≠ btChar)
    (ht : btChar ∉ J) (hh : J.head? = some '{') (hs : pyStrip J = J)
    (hscan : braceScanAux J 0 [] = some J) :
    _extract_json_block (String.mk (pre ++ J ++ post)) = .ok (String.mk J) := by
  obtain ⟨J', hJ⟩ : ∃ J', J = '{' :: J' := by
    rcases J with _ | ⟨c, J'⟩
    · simp at hh
    · simp at hh
      exact ⟨J', by rw [hh]⟩
  have hheadJ : ∀ c, (J ++ post).head? = some c → pyIsSpace c = false := by
    intro c hc
    rw [hJ, List.cons_append] at hc
    simp at hc
    rw [← hc]
    decide
  have hstrip : pyStrip (pre ++ J ++ post)
      = pre.dropWhile pyIsSpace ++ J ++ dropEndCh pyIsSpace post := by
    unfold pyStrip
    rw [List.append_assoc, dropWhile_append_headFail pyIsSpace pre (J ++ post) hheadJ,
      ← List.append_assoc]
    rw [dropEndCh_append_lastFail pyIsSpace (pre.dropWhile pyIsSpace ++ J) post ?hlast,
      List.append_assoc]
    case hlast =>
      intro c hc
      rw [List.getLast?_append] at hc
      cases hJl : J.getLast? with
      | none =>
        rw [hJ] at hJl
        simp at hJl
      | some d =>
        rw [hJl] at hc
        simp only [Option.or] at hc
        injection hc with hdc
        rw [← hdc]
        exact lastFail_of_stripped hs d hJl
  have hdata : (String.mk (pre ++ J ++ post)).data = pre ++ J ++ post := rfl
  have hmem : btChar ∉ pre.dropWhile pyIsSpace ++ J ++ dropEndCh pyIsSpace post := by
    intro hm
    rw [List.append_assoc] at hm
    rcases List.mem_append.mp hm with h1 | h23
    · exact (hpre btChar (mem_dropWhile pyIsSpace h1)).1 rfl
    · rcases List.mem_append.mp h23 with h2 | h3
      · exact ht h2
      · obtain ⟨t, htp⟩ := dropEndCh_append pyIsSpace post
        exact hpost btChar (by rw [← htp]; exact List.mem_append_left _ h3) rfl
  have hdw2 : (pre.dropWhile pyIsSpace ++ J ++ dropEndCh pyIsSpace post).dropWhile
      (fun c => !(c == '{')) = J ++ dropEndCh pyIsSpace post := by
    rw [List.append_assoc,
      dropWhile_append_headFail (fun c => !(c == '{')) (pre.dropWhile pyIsSpace)
        (J ++ dropEndCh pyIsSpace post) ?hB]
    case hB =>
      intro c hc
      rw [hJ, List.cons_append] at hc
      simp at hc
      rw [← hc]
      decide
    rw [List.dropWhile_eq_nil_iff.mpr ?hA, List.nil_append]
    case hA =>
      intro x hx
      have := (hpre x (mem_dropWhile pyIsSpace hx)).2
      simp [this]
  apply extract_via_braces
  · rw [hdata, hstrip]
    exact fenceSearch_none hmem
  · rw [hdata, hstrip, hdw2, hJ]
    simp
  · rw [hdata, hstrip, hdw2]
    exact braceScanAux_extend _ J 0 [] J hscan

theorem strip_ne_nil_of_extract_ok {X s : String}
    (h : _extract_json_block X = .ok s) : pyStrip X.data ≠ [] := by
  intro hc
  unfold _extract_json_block at h
  simp only [hc] at h
  exact Except.noConfusion h

theorem parse_llm_json_ext_congr (X Y : String)
    (hX : pyStrip X.data ≠ []) (hY : pyStrip Y.data ≠ [])
    (h : _extract_json_block X = _extract_json_block Y) :
    parse_llm_json X = parse_llm_json Y := by
  have bX : (X = "" || pyStripStr X = "") = false := by
    have hr : X ≠ "" := by
      intro hc
      apply hX
      rw [hc]
      rfl
    have hs' : pyStripStr X ≠ "" := fun hc => hX (congrArg String.data hc)
    simp [hr, hs']
  have bY : (Y = "" || pyStripStr Y = "") = false := by
    have hr : Y ≠ "" := by
      intro hc
      apply hY
      rw [hc]
      rfl
    have hs' : pyStripStr Y ≠ "" := fun hc => hY (congrArg String.data hc)
    simp [hr, hs']
  unfold parse_llm_json
  rw [bX, bY]
  simp only [Bool.false_eq_true, if_false]
  rw [h]

/-- C3 (amended): wrapping a JSON object text `J` in a triple-backtick
fenced block (tagged `json` or untagged), or surrounding it with prose
containing no backticks and (before `J`) no opening brace, parses to the
same result as `J` alone — provided `J` itself contains no backtick and
the brace-depth scan of `J` first returns to zero exactly at `J`'s end
(true of JSON object text whose string literals contain no braces or
backtick runs).  Hypotheses: `J` starts with `{`, is stripped of
surrounding whitespace, contains no backticks, and the brace-depth scan
of `J` returns exactly `J`.  Without these the invariance is false: see
the counterexample `parse_llm_json_wrap_not_invariant`. -/
theorem parse_llm_json_wrap_invariant (J pre post : String)
    (ht : btChar ∉ J.data) (hh : J.data.head? = some '{')
    (hs : pyStrip J.data = J.data)
    (hscan : braceScanAux J.data 0 [] = some J.data)
    (hpre : ∀ c ∈ pre.data, c ≠ btChar ∧ c ≠ '{')
    (hpost : ∀ c ∈ post.data, c ≠ btChar) :
    parse_llm_json ("```json\n" ++ J ++ "\n```") = parse_llm_json J ∧
    parse_llm_json ("```\n" ++ J ++ "\n```") = parse_llm_json J ∧
    parse_llm_json (pre ++ J ++ post) = parse_llm_json J := by
  have hJeta : String.mk J.data = J := rfl
  have hbare : _extract_json_block J = .ok J := by
    have := extract_bare J.data ht hh hs hscan
    rw [hJeta] at this
    exact this
  have hY := strip_ne_nil_of_extract_ok hbare
  refine ⟨?_, ?_, ?_⟩
  · have hmk : String.mk ("```json\n".data ++ J.data ++ "\n```".data)
        = "```json\n" ++ J ++ "\n```" := by
      have hd : ("```json\n" ++ J ++ "\n```").data
          = "```json\n".data ++ J.data ++ "\n```".data := by
        rw [String.data_append, String.data_append]
      rw [← hd]
    have hw : _extract_json_block ("```json\n" ++ J ++ "\n```") = .ok J := by
      have := extract_fenced_tagged J.data ht hh hs
      rw [hmk, hJeta] at this
      exact this
    exact parse_llm_json_ext_congr _ _ (strip_ne_nil_of_extract_ok hw) hY
      (hw.trans hbare.symm)
  · have hmk : String.mk ("```\n".data ++ J.data ++ "\n```".data)
        = "```\n" ++ J ++ "\n```" := by
      have hd : ("```\n" ++ J ++ "\n```").data
          = "```\n".data ++ J.data ++ "\n```".data := by
        rw [String.data_append, String.data_append]
      rw [← hd]
    have hw : _extract_json_block ("```\n" ++ J ++ "\n```") = .ok J := by
      have := extract_fenced_untagged J.data ht hh hs
      rw [hmk, hJeta] at this
      exact this
    exact parse_llm_json_ext_congr _ _ (strip_ne_nil_of_extract_ok hw) hY
      (hw.trans hbare.symm)
  · have hmk : String.mk (pre.data ++ J.data ++ post.data) = pre ++ J ++ post := by
      have hd : (pre ++ J ++ post).data = pre.data ++ J.data ++ post.data := by
        rw [String.data_append, String.data_append]
      rw [← hd]
    have hw : _extract_json_block (pre ++ J ++ post) = .ok J := by
      have := extract_prose pre.data J.data post.data hpre hpost ht hh hs hscan
      rw [hmk, hJeta] at this
      exact this
    exact parse_llm_json_ext_congr _ _ (strip_ne_nil_of_extract_ok hw) hY
      (hw.trans hbare.symm)

/-- Witness for `parse_llm_json_wrap_invariant` at a concrete JSON
object text with prose and fence wrappings. -/
theorem parse_llm_json_wrap_invariant_witness :
    parse_llm_json
        ("```json\n" ++ "\x7b\"balance_start\": \x7b\x7d, \"balance_end\": \x7b\x7d, \"income_current\": \x7b\x7d\x7d" ++ "\n```")
      = parse_llm_json "\x7b\"balance_start\": \x7b\x7d, \"balance_end\": \x7b\x7d, \"income_current\": \x7b\x7d\x7d" ∧
    parse_llm_json
        ("```\n" ++ "\x7b\"balance_start\": \x7b\x7d, \"balance_end\": \x7b\x7d, \"income_current\": \x7b\x7d\x7d" ++ "\n```")
      = parse_llm_json "\x7b\"balance_start\": \x7b\x7d, \"balance_end\": \x7b\x7d, \"income_current\": \x7b\x7d\x7d" ∧
    parse_llm_json
        ("Ось результат: " ++ "\x7b\"balance_start\": \x7b\x7d, \"balance_end\": \x7b\x7d, \"income_current\": \x7b\x7d\x7d" ++ " — кінець.")
      = parse_llm_json "\x7b\"balance_start\": \x7b\x7d, \"balance_end\": \x7b\x7d, \"income_current\": \x7b\x7d\x7d" :=
  parse_llm_json_wrap_invariant
    "\x7b\"balance_start\": \x7b\x7d, \"balance_end\": \x7b\x7d, \"income_current\": \x7b\x7d\x7d"
    "Ось результат: " " — кінець."
    (by decide) rfl (by decide) (by decide) (by decide) (by decide)

/-! ## Claim C6: per-page OCR fallback -/

theorem pdfPageBlock_fst (ocr : List Nat → String) (idx : Nat) (p : PdfPage) :
    (pdfPageBlock ocr idx p).1 =
      "--- Page " ++ toString (idx + 1) ++ " ---\n" ++
        (if (pyStrip p.nativeText.data).length < MIN_TEXT_LENGTH
         then ocr (p.pixmapPng 300) else p.nativeText) := by
  unfold pdfPageBlock
  by_cases h : (pyStrip p.nativeText.data).length < MIN_TEXT_LENGTH
  · simp [h]
  · simp [h]

theorem pdfPageBlock_snd (ocr : List Nat → String) (idx : Nat) (p : PdfPage) :
    (pdfPageBlock ocr idx p).2 =
      if (pyStrip p.nativeText.data).length < MIN_TEXT_LENGTH
      then [p.pixmapPng 300] else [] := by
  unfold pdfPageBlock
  by_cases h : (pyStrip p.nativeText.data).length < MIN_TEXT_LENGTH
  · simp [h]
  · simp [h]

theorem pdf_trace_enumFrom (ocr : List Nat → String) (l : List PdfPage) :
    ∀ n, (((List.enumFrom n l).map (fun ip => pdfPageBlock ocr ip.1 ip.2)).map
        Prod.snd).flatten =
      (l.filter (fun p =>
        decide ((pyStrip p.nativeText.data).length < MIN_TEXT_LENGTH))).map
        (fun p => p.pixmapPng 300) := by
  induction l with
  | nil => intro n; rfl
  | cons p l ih =>
    intro n
    rw [List.enumFrom_cons, List.map_cons, List.map_cons, List.flatten_cons,
      pdfPageBlock_snd, ih (n + 1)]
    by_cases h : (pyStrip p.nativeText.data).length < MIN_TEXT_LENGTH
    · rw [if_pos h, List.filter_cons_of_pos (by simpa using h), List.map_cons]
      rfl
    · rw [if_neg h, List.filter_cons_of_neg (by simpa using h), List.nil_append]

/-- C6 (confirmed): for every PDF and OCR function, pages are processed
in order; a page whose native text strips to fewer than 50 characters
contributes exactly one OCR invocation, on the PNG bytes of its 300-DPI
rendering, and the OCR output replaces the native text under the page's
header; a page stripping to 50 or more characters contributes no OCR
invocation and keeps its native text; page blocks are joined with a
blank-line separator. -/
theorem pdf_ocr_fallback (pages : List PdfPage) (ocr : List Nat → String) :
    extract_text_from_pdf pages ocr =
      (String.intercalate "\n\n" (pages.enum.map (fun ip =>
         "--- Page " ++ toString (ip.1 + 1) ++ " ---\n" ++
           (if (pyStrip ip.2.nativeText.data).length < MIN_TEXT_LENGTH
            then ocr (ip.2.pixmapPng 300) else ip.2.nativeText))),
       (pages.filter (fun p =>
          decide ((pyStrip p.nativeText.data).length < MIN_TEXT_LENGTH))).map
         (fun p => p.pixmapPng 300)) := by
  unfold extract_text_from_pdf
  refine Prod.ext ?_ ?_
  · show String.intercalate "\n\n"
        ((pages.enum.map (fun ip => pdfPageBlock ocr ip.1 ip.2)).map Prod.fst) = _
    rw [List.map_map]
    congr 1
    apply List.map_congr_left
    intro ip _
    exact pdfPageBlock_fst ocr ip.1 ip.2
  · show (((pages.enum).map (fun ip => pdfPageBlock ocr ip.1 ip.2)).map Prod.snd).flatten = _
    exact pdf_trace_enumFrom ocr pages 0

/-! ## Claim C7: validation precedes all effects -/

/-- C7 (confirmed): a request whose file count is outside [1, 10] fails
with 400, and a request within range containing any disallowed
extension fails with 422 naming the first offending file — in both
cases with an empty effect trace: no file bytes are read, no extraction
runs, and no LLM call is made. -/
theorem analyze_validates_before_effects (env : PipeEnv) (config : AppConfig)
    (files : List UpFile) (ui : String) :
    (files.length < 1 ∨ files.length > MAX_FILES →
      analyze_documents env config files ui =
        (.error ⟨400, .str ("Please upload between 1 and " ++ toString MAX_FILES ++
           " files. Received: " ++ toString files.length)⟩, [])) ∧
    ((1 ≤ files.length ∧ files.length ≤ MAX_FILES) →
      (∃ f ∈ files, is_allowed_extension (f.filename.getD "") = false) →
      ∃ f ∈ files, is_allowed_extension (f.filename.getD "") = false ∧
        analyze_documents env config files ui =
          (.error ⟨422, .str ("Unsupported file type: \x27" ++ f.filename.getD "" ++
             "\x27. Allowed: " ++ String.intercalate ", " allowedExtsSorted)⟩, [])) := by
  constructor
  · intro h
    have hb : (files.length < 1 || files.length > MAX_FILES) = true := by
      rcases h with h | h
      · simp [h]
      · simp [h]
    unfold analyze_documents
    rw [if_pos hb]
  · rintro ⟨h1, h2⟩ ⟨f, hf, hbad⟩
    rw [MAX_FILES] at h2
    have hb : ¬ ((files.length < 1 || files.length > MAX_FILES) = true) := by
      rw [Bool.or_eq_true_iff]
      rintro (hc | hc)
      · rw [decide_eq_true_iff] at hc
        omega
      · rw [decide_eq_true_iff] at hc
        rw [MAX_FILES] at hc
        omega
    have hfs : (files.find? (fun f => !(is_allowed_extension (f.filename.getD "")))).isSome := by
      rw [List.find?_isSome]
      exact ⟨f, hf, by simp [hbad]⟩
    obtain ⟨g, hg⟩ := Option.isSome_iff_exists.mp hfs
    have hgmem := List.mem_of_find?_eq_some hg
    have hgp := List.find?_some hg
    refine ⟨g, hgmem, by simpa using hgp, ?_⟩
    unfold analyze_documents
    rw [if_neg hb, hg]

/-- Witness for `analyze_validates_before_effects`, at a zero-file
request and at a two-file request with an unsupported `.txt` upload. -/
theorem analyze_validates_before_effects_witness :
    (analyze_documents
       ⟨⟨fun _ => .error "x", fun _ => .error "x", fun _ => .error "x",
         fun _ => .error "x"⟩,
        fun _ => .error "x", fun _ _ => .error "x", fun _ _ => .error "x",
        fun _ => ⟨"", "", [], []⟩⟩
       ⟨10, 1000, "p", "r"⟩ [] "" =
      (.error ⟨400, .str ("Please upload between 1 and " ++ toString MAX_FILES ++
         " files. Received: " ++ toString ([] : List UpFile).length)⟩, [])) ∧
    (∃ f ∈ ([⟨some "a.xlsx", [1]⟩, ⟨some "b.txt", [2]⟩] : List UpFile),
      is_allowed_extension (f.filename.getD "") = false ∧
      analyze_documents
        ⟨⟨fun _ => .error "x", fun _ => .error "x", fun _ => .error "x",
          fun _ => .error "x"⟩,
         fun _ => .error "x", fun _ _ => .error "x", fun _ _ => .error "x",
         fun _ => ⟨"", "", [], []⟩⟩
        ⟨10, 1000, "p", "r"⟩ [⟨some "a.xlsx", [1]⟩, ⟨some "b.txt", [2]⟩] "" =
        (.error ⟨422, .str ("Unsupported file type: \x27" ++ f.filename.getD "" ++
           "\x27. Allowed: " ++ String.intercalate ", " allowedExtsSorted)⟩, [])) :=
  ⟨(analyze_validates_before_effects _ _ [] "").1 (Or.inl (by decide)),
   (analyze_validates_before_effects _ _ _ "").2 (by constructor <;> decide)
     ⟨⟨some "b.txt", [2]⟩, by decide, by decide⟩⟩

/-! ## Claim C10: filename-keyed extraction map -/

/-- Keys of a dict after an update: unchanged when the key was present
(value replaced in place), appended otherwise. -/
theorem keys_dictUpdate {α : Type} (l : List (String × α)) (k : String) (v : α) :
    (dictUpdate l k v).map Prod.fst =
      if l.any (fun p => p.1 == k) then l.map Prod.fst
      else l.map Prod.fst ++ [k] := by
  unfold dictUpdate
  by_cases h : l.any (fun p => p.1 == k)
  · rw [if_pos h, if_pos h, List.map_map]
    apply List.map_congr_left
    intro p _
    by_cases hp : (p.1 == k) = true
    · have hk : p.1 = k := by simpa using hp
      show (if (p.1 == k) = true then (k, v) else p).1 = p.1
      rw [if_pos hp, hk]
    · show (if (p.1 == k) = true then (k, v) else p).1 = p.1
      rw [if_neg hp]
  · rw [if_neg h, if_neg h, List.map_append]
    rfl

/-- `any` over pair keys agrees with `contains` on the key list. -/
theorem any_fst_eq_contains {α : Type} (l : List (String × α)) (k : String) :
    (l.any fun p => p.1 == k) = (l.map Prod.fst).contains k := by
  induction l with
  | nil => rfl
  | cons a l ih =>
    have hcomm : (a.1 == k) = (k == a.1) := by
      by_cases h : a.1 = k
      · simp [h]
      · have h' : k ≠ a.1 := fun hc => h hc.symm
        simp [h, h']
    simp only [List.any_cons, List.map_cons, List.contains_cons, ih, hcomm]

/-- A list of pairwise-distinct names survives `dedupKeepFirst`
unchanged (order preserved). -/
theorem dedupKeepFirst_nodup (names : List String) (h : names.Nodup) :
    dedupKeepFirst names = names := by
  suffices hgen : ∀ (l : List String) (acc : List String),
      (∀ n ∈ l, ¬ n ∈ acc) → l.Nodup →
      l.foldl (fun acc n => if acc.contains n then acc else acc ++ [n]) acc
        = acc ++ l by
    have := hgen names [] (by simp) h
    simpa [dedupKeepFirst] using this
  intro l
  induction l with
  | nil => intro acc _ _; simp
  | cons n l ih =>
    intro acc hdisj hnd
    rw [List.foldl_cons]
    have hnacc : acc.contains n = false := by
      simp [hdisj n (List.mem_cons_self _ _)]
    rw [if_neg (fun hc => by rw [hnacc] at hc; exact Bool.noConfusion hc)]
    rw [ih (acc ++ [n]) ?hd (List.Nodup.of_cons hnd)]
    · simp
    case hd =>
      intro m hm
      rw [List.mem_append]
      rintro (hin | hin)
      · exact hdisj m (List.mem_cons_of_mem _ hm) hin
      · simp at hin
        rw [hin] at hm
        exact (List.nodup_cons.mp hnd).1 hm

theorem extractFiles_keys_failed (x : ExtractorEnv) :
    ∀ (data : List (String × List Nat)) (acc : List (String × String) × List Json × List PipeEv),
      (∀ p ∈ data, ∃ t, extract_text x p.1 p.2 = .ok t) →
      ((data.foldl (extractStep x) acc).1).map Prod.fst =
        data.foldl (fun ks p => if ks.contains p.1 then ks else ks ++ [p.1])
          (acc.1.map Prod.fst) ∧
      (data.foldl (extractStep x) acc).2.1 = acc.2.1 := by
  intro data
  induction data with
  | nil => intro acc _; exact ⟨rfl, rfl⟩
  | cons p data ih =>
    intro acc h
    obtain ⟨t, ht⟩ := h p (List.mem_cons_self _ _)
    have hstep : extractStep x acc p =
        (dictUpdate acc.1 p.1 t, acc.2.1, acc.2.2 ++ [PipeEv.extractFile p.1]) := by
      unfold extractStep
      rw [ht]
    rw [List.foldl_cons, List.foldl_cons, hstep]
    obtain ⟨ih1, ih2⟩ := ih (dictUpdate acc.1 p.1 t, acc.2.1,
      acc.2.2 ++ [PipeEv.extractFile p.1]) (fun q hq => h q (List.mem_cons_of_mem _ hq))
    refine ⟨?_, ih2⟩
    rw [ih1, keys_dictUpdate, any_fst_eq_contains]

theorem extractFiles_lookup_preserved (x : ExtractorEnv) :
    ∀ (B : List (String × List Nat))
      (acc : List (String × String) × List Json × List PipeEv) (n : String),
      (∀ q ∈ B, q.1 ≠ n) →
      dictGet (B.foldl (extractStep x) acc).1 n = dictGet acc.1 n := by
  intro B
  induction B with
  | nil => intro acc n _; rfl
  | cons q B ih =>
    intro acc n h
    rw [List.foldl_cons]
    rw [ih _ n (fun r hr => h r (List.mem_cons_of_mem _ hr))]
    unfold extractStep
    cases hq : extract_text x q.1 q.2 with
    | error e => rfl
    | ok t =>
      exact dictGet_dictUpdate_other _ _ _ _ (h q (List.mem_cons_self _ _)).symm

/-- C10 (confirmed): the extraction phase stores texts in a dict keyed
by filename (`analyze_documents` then sets `files_processed` to that
dict's key list and builds the combined text from it in the same
order): when every file extracts successfully there are no failed
files and the key list is the upload-order list of filenames with
duplicates dropped at their later positions (first occurrence keeps the
position; distinct filenames are preserved in upload order, see
`dedupKeepFirst_nodup`); when two files share a filename the later
file's text is the one stored under that key; and the combined text
lists the dict's entries in order, each under its `=== FILE: ... ===`
header, joined by blank lines. -/
theorem extract_phase_filename_map (x : ExtractorEnv) :
    (∀ data : List (String × List Nat),
      (∀ p ∈ data, ∃ t, extract_text x p.1 p.2 = .ok t) →
      (extractFiles x data).2.1 = [] ∧
      ((extractFiles x data).1).map Prod.fst = dedupKeepFirst (data.map Prod.fst)) ∧
    (∀ (pre mid post : List (String × List Nat)) (n : String) (c1 c2 : List Nat)
       (t2 : String),
      extract_text x n c2 = .ok t2 → (∀ q ∈ post, q.1 ≠ n) →
      dictGet (extractFiles x (pre ++ (n, c1) :: mid ++ (n, c2) :: post)).1 n
        = some t2) ∧
    (∀ ft : List (String × String),
      combine_extracted_texts ft =
        String.intercalate "\n\n"
          (ft.map fun p => "=== FILE: " ++ p.1 ++ " ===\n" ++ p.2)) := by
  refine ⟨?_, ?_, fun _ => rfl⟩
  · intro data h
    obtain ⟨h1, h2⟩ := extractFiles_keys_failed x data ([], [], []) h
    refine ⟨h2, ?_⟩
    rw [show (extractFiles x data).1 = (data.foldl (extractStep x) ([], [], [])).1 from rfl,
      h1]
    unfold dedupKeepFirst
    rw [List.foldl_map]
    rfl
  · intro pre mid post n c1 c2 t2 h2 hpost
    unfold extractFiles
    rw [List.foldl_append, List.foldl_cons, List.foldl_append, List.foldl_cons]
    rw [extractFiles_lookup_preserved x post _ n hpost]
    have hstep : ∀ acc, extractStep x acc (n, c2) =
        (dictUpdate acc.1 n t2, acc.2.1, acc.2.2 ++ [PipeEv.extractFile n]) := by
      intro acc
      unfold extractStep
      rw [show ((n, c2) : String × List Nat).1 = n from rfl,
        show ((n, c2) : String × List Nat).2 = c2 from rfl, h2]
    rw [hstep]
    exact dictGet_dictUpdate_self _ _ _

/-- Witness for `extract_phase_filename_map` at a two-file upload with
a shared filename. -/
theorem extract_phase_filename_map_witness :
    dictGet (extractFiles
        ⟨fun _ => .error "x", fun _ => .error "x",
         fun b => .ok (if b = [1] then "first" else "second"), fun _ => .error "x"⟩
        [("r.xlsx", [1]), ("r.xlsx", [2])]).1 "r.xlsx"
      = some (clean_text "second") := by
  have h := (extract_phase_filename_map
      ⟨fun _ => .error "x", fun _ => .error "x",
       fun b => .ok (if b = [1] then "first" else "second"), fun _ => .error "x"⟩).2.1
      [] [] [] "r.xlsx" [1] [2] (clean_text "second") rfl (by intro q hq; cases hq)
  simpa using h


/-- Counterexample for C3 as stated: the claim quantifies over every
JSON object text with the three required keys, constraining only the
prose.  It fails on two such texts.  With a backtick run inside a
string value, the bare text parses to a dataset but the json-tagged
fenced wrapping does not: the fence regex closes at the inner backticks
and extracts a prefix ending mid-string.  With an opening brace inside a
string value, the bare text parses but the prose wrapping (prose with
no braces and no backtick fences, as the claim requires) does not: the
brace-depth scan never returns to zero, the whole remaining text
including the trailing prose is taken as the JSON span, and parsing
fails on the extra data. -/
theorem parse_llm_json_wrap_not_invariant :
    parse_llm_json
        ("```json\n" ++ "\x7b\"company_name\": \"a```b\", \"balance_start\": \x7b\x7d, \"balance_end\": \x7b\x7d, \"income_current\": \x7b\x7d\x7d" ++ "\n```")
      ≠ parse_llm_json
        "\x7b\"company_name\": \"a```b\", \"balance_start\": \x7b\x7d, \"balance_end\": \x7b\x7d, \"income_current\": \x7b\x7d\x7d" ∧
    parse_llm_json
        "\x7b\"company_name\": \"a```b\", \"balance_start\": \x7b\x7d, \"balance_end\": \x7b\x7d, \"income_current\": \x7b\x7d\x7d"
      = .ok
        [("company_name", PyVal.raw (Json.str "a```b")),
         ("balance_start", PyVal.fmap []),
         ("balance_end", PyVal.fmap []),
         ("income_current", PyVal.fmap []),
         ("period", PyVal.raw (Json.str "—"))] ∧
    parse_llm_json
        ("Ось результат: " ++ "\x7b\"company_name\": \"\x7b\", \"balance_start\": \x7b\x7d, \"balance_end\": \x7b\x7d, \"income_current\": \x7b\x7d\x7d" ++ " кінець.")
      ≠ parse_llm_json
        "\x7b\"company_name\": \"\x7b\", \"balance_start\": \x7b\x7d, \"balance_end\": \x7b\x7d, \"income_current\": \x7b\x7d\x7d" ∧
    parse_llm_json
        "\x7b\"company_name\": \"\x7b\", \"balance_start\": \x7b\x7d, \"balance_end\": \x7b\x7d, \"income_current\": \x7b\x7d\x7d"
      = .ok
        [("company_name", PyVal.raw (Json.str "\x7b")),
         ("balance_start", PyVal.fmap []),
         ("balance_end", PyVal.fmap []),
         ("income_current", PyVal.fmap []),
         ("period", PyVal.raw (Json.str "—"))] := by
  refine ⟨?_, rfl, ?_, rfl⟩
  · intro h
    have h1 : parse_llm_json
        ("```json\n" ++ "\x7b\"company_name\": \"a```b\", \"balance_start\": \x7b\x7d, \"balance_end\": \x7b\x7d, \"income_current\": \x7b\x7d\x7d" ++ "\n```")
        = .error "Не вдалося розпарсити JSON" := rfl
    have h2 : parse_llm_json
        "\x7b\"company_name\": \"a```b\", \"balance_start\": \x7b\x7d, \"balance_end\": \x7b\x7d, \"income_current\": \x7b\x7d\x7d"
        = .ok
          [("company_name", PyVal.raw (Json.str "a```b")),
           ("balance_start", PyVal.fmap []),
           ("balance_end", PyVal.fmap []),
           ("income_current", PyVal.fmap []),
           ("period", PyVal.raw (Json.str "—"))] := rfl
    rw [h1, h2] at h
    exact Except.noConfusion h
  · intro h
    have h1 : parse_llm_json
        ("Ось результат: " ++ "\x7b\"company_name\": \"\x7b\", \"balance_start\": \x7b\x7d, \"balance_end\": \x7b\x7d, \"income_current\": \x7b\x7d\x7d" ++ " кінець.")
        = .error "Не вдалося розпарсити JSON" := rfl
    have h2 : parse_llm_json
        "\x7b\"company_name\": \"\x7b\", \"balance_start\": \x7b\x7d, \"balance_end\": \x7b\x7d, \"income_current\": \x7b\x7d\x7d"
        = .ok
          [("company_name", PyVal.raw (Json.str "\x7b")),
           ("balance_start", PyVal.fmap []),
           ("balance_end", PyVal.fmap []),
           ("income_current", PyVal.fmap []),
           ("period", PyVal.raw (Json.str "—"))] := rfl
    rw [h1, h2] at h
    exact Except.noConfusion h
